import Mathlib

/-
  Verification development for the tlparse structured-log ingestion pipeline
  (src/lib.rs, src/types.rs, src/parsers.rs).

  The Rust sources are shallowly embedded below.  External crates used by the
  source (the regex engine, serde_json, the md5 hasher, tinytemplate, syntect)
  are modelled as components of an `Ext` record of pure functions, following
  the specification, which treats the template engine and the other external
  collaborators as pure functions specified only by their interfaces.  All code
  that lives in this repository (control flow of parse_path, counters, payload
  consumption, the rank gate, the analyzer dispatch, the stack trie, the
  metrics index, filename manipulation) is translated directly.

  Machine integers (u32, u64, i32, usize) are modelled as Nat / Int; none of
  the embedded arithmetic can overflow for the quantities involved (counters
  only ever increase by 1 per input line).
-/

namespace Tlparse

instance exceptDecEq {ε α : Type} [DecidableEq ε] [DecidableEq α] :
    DecidableEq (Except ε α) := fun a b =>
  match a, b with
  | .ok x, .ok y =>
    match decEq x y with
    | isTrue h => isTrue (by rw [h])
    | isFalse h => isFalse (by intro hc; cases hc; exact h rfl)
  | .error x, .error y =>
    match decEq x y with
    | isTrue h => isTrue (by rw [h])
    | isFalse h => isFalse (by intro hc; cases hc; exact h rfl)
  | .ok _, .error _ => isFalse (by intro hc; cases hc)
  | .error _, .ok _ => isFalse (by intro hc; cases hc)

/-! Basic character/string helpers.  Lean string functions that do not reduce
    in the kernel are re-implemented over `String.data`. -/

def chData (s : String) : List Char := s.data

def ofCh (l : List Char) : String := ⟨l⟩

/-- Does string s start with prefix p (byte/char-wise)?  Models Rust
    str::starts_with. -/
def strStarts (s p : String) : Bool := p.data.isPrefixOf s.data

/-- Does string s end with suffix p?  Models Rust str::ends_with. -/
def strEnds (s p : String) : Bool := p.data.isSuffixOf s.data

/-- First occurrence split: returns (before, after) around the first
    occurrence of sep, or none.  Helper for splitStr. -/
def splitFirstSub (sep : List Char) : List Char → Option (List Char × List Char)
  | [] => none
  | c :: rest =>
    if sep.isPrefixOf (c :: rest) then some ([], (c :: rest).drop sep.length)
    else match splitFirstSub sep rest with
      | some (a, b) => some (c :: a, b)
      | none => none

/-- Fuelled worker for splitStr; fuel bounds the number of separators. -/
def splitOnAux (sep : List Char) : Nat → List Char → List (List Char)
  | 0, l => [l]
  | fuel + 1, l =>
    match splitFirstSub sep l with
    | none => [l]
    | some (a, b) => a :: splitOnAux sep fuel b

/-- Split on every occurrence of a (non-empty) separator; models Rust
    str::split.  The fuel is an upper bound on the number of pieces; the
    function is total and fuel-insensitive beyond that bound. -/
def splitStr (s sep : String) : List String :=
  (splitOnAux sep.data (s.data.length + 1) s.data).map ofCh

/-- Join with "/" separator; models std::path joining of components. -/
def joinSlash (parts : List String) : String := String.intercalate "/" parts

/-- Decimal digits of a natural number, little helper with explicit fuel so
    that it reduces in the kernel; models integer to_string in Rust. -/
def decAux : Nat → Nat → List Char
  | 0, _ => []
  | fuel + 1, n =>
    if n < 10 then [Char.ofNat (48 + n)]
    else decAux fuel (n / 10) ++ [Char.ofNat (48 + n % 10)]

def decStr (n : Nat) : String := ofCh (decAux (n + 1) n)

/-- Decimal rendering of an i32 value (output_count in run_parser); negative
    values render with a leading minus sign. -/
def decInt (i : Int) : String :=
  if i < 0 then "-" ++ decStr i.natAbs else decStr i.toNat

/-- Numeric value of a decimal digit character. -/
def digitVal (c : Char) : Nat := c.toNat - 48

/-- Value of a big-endian list of decimal digit characters. -/
def digitsToNat (l : List Char) : Nat := l.foldl (fun acc c => 10 * acc + digitVal c) 0

def isDigitCh (c : Char) : Bool := 48 ≤ c.toNat && c.toNat ≤ 57

/-- html_escape::encode_text: escape the characters needing escaping in an
    HTML text node (ampersand, less-than, greater-than). -/
def encodeTextL : List Char → List Char
  | [] => []
  | c :: r =>
    (if c = '&' then "&amp;".data
     else if c = '<' then "&lt;".data
     else if c = '>' then "&gt;".data
     else [c]) ++ encodeTextL r

def encode_text (s : String) : String := ofCh (encodeTextL s.data)

/-! Intern table (types.rs INTERN_TABLE): a process-wide map u32 → String.
    Modelled as an association list with hash-map insert-or-replace
    semantics; it is threaded through parse explicitly. -/

abbrev InternTable := List (Nat × String)

def internLookup : InternTable → Nat → Option String
  | [], _ => none
  | (k, v) :: rest, i => if k = i then some v else internLookup rest i

def internInsert : InternTable → Nat → String → InternTable
  | [], i, s => [(i, s)]
  | (k, v) :: rest, i, s =>
    if k = i then (k, s) :: rest else (k, v) :: internInsert rest i s

/-- types.rs unintern_str: resolve an interned id, with the "(unknown)"
    sentinel for a missing id. -/
def unintern_str (tbl : InternTable) (interned : Nat) : String :=
  (internLookup tbl interned).getD "(unknown)"

/-! types.rs simplify_filename: strip the build-sandbox path prefixes. -/

/-- Is lit an infix of seg starting at index at least 1 and with at least one
    character following it?  This captures exactly when the regex
    piece (non-slash)+ literal (non-slash)+ can match inside one
    slash-free segment. -/
def containsProperInfix (lit : List Char) : List Char → Bool
  | [] => false
  | _ :: rest => scanFrom rest
where scanFrom : List Char → Bool
  | [] => false
  | c :: r => (lit.isPrefixOf (c :: r) && decide (lit.length < (c :: r).length)) || scanFrom r

def seedNspidLit : List Char := "-seed-nspid".data

/-- Walk the slash-separated segments; when a non-final segment matches the
    seed-nspid pattern, return the segments after it (the regex match ends
    right after that segment and its slash). -/
def seedStripSegs : List String → Option (List String)
  | [] => none
  | [_] => none
  | s :: rest =>
    if containsProperInfix seedNspidLit s.data then some rest
    else seedStripSegs rest

/-- types.rs simplify_filename.  First the link-tree split (returning the
    second piece when the marker occurs), then the seed-nspid regex whose
    match end is the slash closing the matching segment. -/
def simplify_filename (filename : String) : String :=
  let parts := splitStr filename "#link-tree/"
  match parts with
  | _ :: second :: _ => second
  | _ =>
    match seedStripSegs (splitStr filename "/") with
    | some rest => joinSlash rest
    | none => filename

/-! types.rs extract_eval_with_key_id. -/

def evalKeyLit : List Char := "<eval_with_key>.".data

/-- Leftmost match of the eval_with_key regex: the literal followed by at
    least one digit; the captured digit run is maximal.  A u64 parse overflow
    yields none (as .parse::<u64>().ok() does). -/
def extractEvalAux : List Char → Option Nat
  | [] => none
  | c :: rest =>
    if evalKeyLit.isPrefixOf (c :: rest) then
      let after := (c :: rest).drop evalKeyLit.length
      let digits := after.takeWhile isDigitCh
      if digits.isEmpty then extractEvalAux rest
      else if digitsToNat digits < 2 ^ 64 then some (digitsToNat digits) else none
    else extractEvalAux rest

def extract_eval_with_key_id (filename : String) : Option Nat :=
  extractEvalAux filename.data

/-! Payload digest decoding: base16ct::lower::decode into a 16-byte buffer.
    The decode succeeds iff the input has even length at most 32 and every
    character is a lowercase hex digit; the undecoded tail of the buffer
    stays zero. -/

def hexVal (c : Char) : Option Nat :=
  if 48 ≤ c.toNat ∧ c.toNat ≤ 57 then some (c.toNat - 48)
  else if 97 ≤ c.toNat ∧ c.toNat ≤ 102 then some (c.toNat - 87)
  else none

def hexPairs : List Char → Option (List Nat)
  | [] => some []
  | [_] => none
  | a :: b :: r =>
    match hexVal a, hexVal b, hexPairs r with
    | some x, some y, some t => some ((16 * x + y) :: t)
    | _, _, _ => none

/-- Decode a declared payload digest into the 16-byte comparison buffer. -/
def decodeDigest16 (s : String) : Option (List Nat) :=
  if s.data.length ≤ 32 then
    (hexPairs s.data).map (fun bs => bs ++ List.replicate (16 - bs.length) 0)
  else none

/-! Path manipulation used by run_parser (std::path semantics on the path
    strings the pipeline builds). -/

/-- PathBuf::join: an absolute right operand replaces the left. -/
def pathJoin (a b : String) : String :=
  if strStarts b "/" then b else a ++ "/" ++ b

/-- Split the final path component at its last dot, Rust file_stem /
    extension rules: no dot, or only a leading dot, means no extension. -/
def stemExtOfName (name : List Char) : List Char × Option (List Char) :=
  let rev := name.reverse
  let extRev := rev.takeWhile (fun c => c ≠ '.')
  if extRev.length = rev.length then (name, none)
  else
    let stemRev := rev.drop (extRev.length + 1)
    if stemRev.isEmpty then (name, none)
    else (stemRev.reverse, some extRev.reverse)

/-- Rust Path::file_name of the path string: the last normal component;
    none for an empty path or a path ending in a parent reference. -/
def fileNameOf (p : String) : Option String :=
  let comps := (splitStr p "/").filter (fun c => c ≠ "" && c ≠ ".")
  match comps.getLast? with
  | none => none
  | some c => if c = ".." then none else some c

def fileStemOf (p : String) : Option String :=
  (fileNameOf p).map (fun n => ofCh (stemExtOfName n.data).1)

def extensionOf (p : String) : Option String :=
  (fileNameOf p).bind (fun n => ((stemExtOfName n.data).2).map ofCh)

/-- PathBuf::with_file_name: drop the final component and push the new one. -/
def withFileName (p n : String) : String :=
  let parts := splitStr p "/"
  let parts := dropTrailing parts
  match parts with
  | [] => n
  | ps => joinSlash (ps.dropLast ++ [n])
where dropTrailing : List String → List String
  | [] => []
  | [x] => if x = "" || x = "." then [] else [x]
  | x :: xs =>
    match dropTrailing xs with
    | [] => if x = "" || x = "." then [] else [x]
    | ys => x :: ys

/-! Data model (types.rs). -/

/-- types.rs CompileId: a (frame_id, frame_compile_id, attempt) triple. -/
structure CompileId where
  frame_id : Nat
  frame_compile_id : Nat
  attempt : Nat
deriving DecidableEq, Repr

/-- Display for CompileId: bracketed, attempt shown only when non-zero. -/
def CompileId.render (c : CompileId) : String :=
  "[" ++ decStr c.frame_id ++ "/" ++ decStr c.frame_compile_id ++
    (if c.attempt ≠ 0 then "_" ++ decStr c.attempt else "") ++ "]"

/-- types.rs FrameSummary.  Equality and hashing use all four fields. -/
structure FrameSummary where
  filename : Nat
  line : Int
  name : String
  uninterned_filename : Option String := none
deriving DecidableEq, Repr

abbrev StackSummary := List FrameSummary

/-- Display for FrameSummary: resolve the filename (preferring the
    uninterned one), then either the eval_with_key anchor form or the plain
    form, both with HTML escaping and sandbox-prefix simplification. -/
def FrameSummary.render (tbl : InternTable) (f : FrameSummary) : String :=
  let filename :=
    match f.uninterned_filename with
    | some s => s
    | none => (internLookup tbl f.filename).getD "(unknown)"
  match extract_eval_with_key_id filename with
  | some fx_id =>
    "<a href=\x27dump_file/eval_with_key_" ++ decStr fx_id ++ ".html#L" ++
      decInt f.line ++ "\x27>" ++ encode_text (simplify_filename filename) ++ ":" ++
      decInt f.line ++ "</a> in " ++ encode_text f.name
  | none =>
    encode_text (simplify_filename filename) ++ ":" ++ decInt f.line ++ " in " ++
      encode_text f.name

/-- types.rs Stats: one counter per error kind. -/
structure Stats where
  ok : Nat := 0
  other_rank : Nat := 0
  fail_glog : Nat := 0
  fail_json : Nat := 0
  fail_payload_md5 : Nat := 0
  fail_dynamo_guards_json : Nat := 0
  failParser : Nat := 0
  unknown : Nat := 0
deriving DecidableEq, Repr

/-- types.rs CompilationMetricsMetadata (the fields the pipeline reads;
    numeric timing fields that no code path inspects are omitted, failure
    and restart fields are all present). -/
structure CompilationMetricsMetadata where
  co_name : Option String := none
  co_filename : Option String := none
  co_firstlineno : Option Int := none
  graph_op_count : Option Nat := none
  fail_type : Option String := none
  fail_reason : Option String := none
  fail_user_frame_filename : Option String := none
  fail_user_frame_lineno : Option Nat := none
  restart_reasons : Option (List String) := none
deriving DecidableEq, Repr

/-- types.rs SymbolicShapeSpecializationMetadata. -/
structure SymbolicShapeSpecializationMetadata where
  symbol : Option String := none
  sources : Option (List String) := none
  value : Option String := none
  stack : Option StackSummary := none
  user_stack : Option StackSummary := none
deriving DecidableEq, Repr

/-- types.rs DynamoGuard (payload schema of dynamo_guards records). -/
structure DynamoGuard where
  code : String
  stack : Option StackSummary := none
  user_stack : Option StackSummary := none
deriving DecidableEq, Repr

/-- types.rs OutputFile: one row of a compile directory bucket. -/
structure OutputFile where
  url : String
  name : String
  number : Int
  suffix : String
deriving DecidableEq, Repr

/-- types.rs Envelope: the decoded JSON metadata of one log line.  Sentinel
    discriminants whose metadata is the empty object are Bool; the rest carry
    their metadata.  otherFields holds the names of unrecognized fields. -/
structure Envelope where
  rank : Option Nat := none
  compile_id : Option CompileId := none
  has_payload : Option String := none
  stack : Option StackSummary := none
  dynamo_start : Option (Option StackSummary) := none
  str : Option (String × Nat) := none
  dynamo_output_graph : Bool := false
  optimize_ddp_split_graph : Bool := false
  optimize_ddp_split_child : Option String := none
  compiled_autograd_graph : Bool := false
  dynamo_guards : Bool := false
  aot_forward_graph : Bool := false
  aot_backward_graph : Bool := false
  aot_joint_graph : Bool := false
  inductor_post_grad_graph : Bool := false
  dynamo_cpp_guards_str : Bool := false
  inductor_output_code : Option (Option String) := none
  compilation_metrics : Option CompilationMetricsMetadata := none
  bwd_compilation_metrics : Bool := false
  aot_autograd_backward_compilation_metrics : Bool := false
  graph_dump : Option String := none
  link : Option (String × String) := none
  symbolic_shape_specialization : Option SymbolicShapeSpecializationMetadata := none
  artifact : Option (String × String) := none
  dump_file : Option String := none
  chromium_event : Bool := false
  otherFields : List String := []
deriving DecidableEq, Repr

/-! Stack trie (types.rs StackTrieNode).  The children are an
    insertion-ordered map from FrameSummary to child node; terminals are the
    compile ids deposited at the end of each inserted stack.  A mutual
    inductive keeps all recursion structural so everything reduces in the
    kernel. -/

mutual
inductive StackTrieNode where
  | mk (terminal : List (Option CompileId)) (children : ChildList)
deriving DecidableEq
inductive ChildList where
  | nil
  | cons (frame : FrameSummary) (child : StackTrieNode) (rest : ChildList)
deriving DecidableEq
end

def StackTrieNode.terminal : StackTrieNode → List (Option CompileId)
  | .mk t _ => t

def StackTrieNode.children : StackTrieNode → ChildList
  | .mk _ c => c

def emptyTrie : StackTrieNode := .mk [] .nil

def ChildList.lookup : ChildList → FrameSummary → Option StackTrieNode
  | .nil, _ => none
  | .cons g c rest, f => if g = f then some c else rest.lookup f

/-- Replace the child stored under an existing key, keeping its position. -/
def ChildList.setAt : ChildList → FrameSummary → StackTrieNode → ChildList
  | .nil, _, _ => .nil
  | .cons g c rest, f, n => if g = f then .cons g n rest else .cons g c (rest.setAt f n)

/-- Append a new (key, child) entry at the end (IndexMap entry or_default
    inserts new keys at the end, preserving insertion order). -/
def ChildList.push : ChildList → FrameSummary → StackTrieNode → ChildList
  | .nil, f, n => .cons f n .nil
  | .cons g c rest, f, n => .cons g c (rest.push f n)

def ChildList.length : ChildList → Nat
  | .nil => 0
  | .cons _ _ rest => 1 + rest.length

def ChildList.isNil : ChildList → Bool
  | .nil => true
  | .cons _ _ _ => false

/-- types.rs StackTrieNode::insert: walk and create the path of the stack,
    then append the compile id to the terminal list at the end. -/
def StackTrieNode.insert : StackTrieNode → StackSummary → Option CompileId → StackTrieNode
  | .mk term ch, [], cid => .mk (term ++ [cid]) ch
  | .mk term ch, f :: fs, cid =>
    match ch.lookup f with
    | some c => .mk term (ch.setAt f (c.insert fs cid))
    | none => .mk term (ch.push f (StackTrieNode.insert emptyTrie fs cid))

/-- types.rs StackTrieNode::insert_no_terminal. -/
def StackTrieNode.insertNoTerminal : StackTrieNode → StackSummary → StackTrieNode
  | t, [] => t
  | .mk term ch, f :: fs =>
    match ch.lookup f with
    | some c => .mk term (ch.setAt f (c.insertNoTerminal fs))
    | none => .mk term (ch.push f (StackTrieNode.insertNoTerminal emptyTrie fs))

/-- types.rs StackTrieNode::is_empty. -/
def StackTrieNode.isEmpty (t : StackTrieNode) : Bool :=
  t.children.isNil && t.terminal.isEmpty

/-! The compilation metrics index (insertion-ordered map keyed by optional
    CompileId, values are the metric records pushed per attempt). -/

abbrev CompilationMetricsIndex := List (Option CompileId × List CompilationMetricsMetadata)

def cmIndexLookup : CompilationMetricsIndex → Option CompileId → Option (List CompilationMetricsMetadata)
  | [], _ => none
  | (k, v) :: rest, c => if k = c then some v else cmIndexLookup rest c

/-- entry(cid).or_default().push(m) on the insertion-ordered index. -/
def cmIndexPush : CompilationMetricsIndex → Option CompileId → CompilationMetricsMetadata → CompilationMetricsIndex
  | [], c, m => [(c, [m])]
  | (k, v) :: rest, c, m =>
    if k = c then (k, v ++ [m]) :: rest else (k, v) :: cmIndexPush rest c m

/-- The CSS status class computed in types.rs fmt_inner for a terminal t,
    looked up in the metrics index under t exactly as stored.  Translated
    from the inline expression in StackTrieNode::fmt_inner. -/
def okClassOf (mbIdx : Option CompilationMetricsIndex) (t : Option CompileId) : String :=
  match mbIdx with
  | none => "status-missing"
  | some idx =>
    match cmIndexLookup idx t with
    | none => "status-missing"
    | some m =>
      if m.any (fun n => n.fail_type.isSome) then "status-error"
      else if m.any (fun n => n.graph_op_count.getD 0 = 0) then "status-empty"
      else if m.any (fun n => !(match n.restart_reasons with
                                | none => false
                                | some o => o.isEmpty)) then "status-break"
      else "status-ok"

/-- The anchor rendered in fmt_inner for one terminal entry. -/
def terminalAnchor (mbIdx : Option CompilationMetricsIndex) (t : Option CompileId) : String :=
  match t with
  | some c =>
    "<a href=\x27#" ++ c.render ++ "\x27 class=\x27" ++ okClassOf mbIdx t ++ "\x27>" ++
      c.render ++ "</a> "
  | none => "(unknown) "

/-- The star string of fmt_inner: the concatenated terminal anchors of one
    child node. -/
def starOf (mbIdx : Option CompilationMetricsIndex) (ts : List (Option CompileId)) : String :=
  ts.foldl (fun acc t => acc ++ terminalAnchor mbIdx t) ""

/-! types.rs StackTrieNode::fmt_inner / fmt.  The sibling count of the node
    being rendered decides the layout of each of its children; writeln!
    appends a newline. -/

mutual
def StackTrieNode.fmtInner (tbl : InternTable) (mbIdx : Option CompilationMetricsIndex) :
    StackTrieNode → String
  | .mk _ ch => ChildList.fmtChildren tbl mbIdx (ch.length > 1) ch

def ChildList.fmtChildren (tbl : InternTable) (mbIdx : Option CompilationMetricsIndex)
    (multi : Bool) : ChildList → String
  | .nil => ""
  | .cons frame node rest =>
    let star := starOf mbIdx node.terminal
    let chunk :=
      if multi then
        "<li><span onclick=\x27toggleList(this)\x27 class=\x27marker\x27></span>" ++ star ++
          "\n" ++ FrameSummary.render tbl frame ++ "<ul>\n" ++
          StackTrieNode.fmtInner tbl mbIdx node ++ "</ul></li>"
      else
        "<li>" ++ star ++ FrameSummary.render tbl frame ++ "</li>\n" ++
          StackTrieNode.fmtInner tbl mbIdx node
    chunk ++ ChildList.fmtChildren tbl mbIdx multi rest
end

/-- types.rs StackTrieNode::fmt: the wrapper div/ul around fmt_inner. -/
def StackTrieNode.fmt (tbl : InternTable) (t : StackTrieNode)
    (mbIdx : Option CompilationMetricsIndex) : String :=
  "<div class=\x27stack-trie\x27>" ++ "<ul>" ++ t.fmtInner tbl mbIdx ++ "</ul>" ++ "</div>"

-- All terminal values sitting strictly below the root (the ones fmt_inner
-- renders: the root terminal list itself is never printed).
mutual
def StackTrieNode.terminalsBelow : StackTrieNode → List (Option CompileId)
  | .mk _ ch => ch.terminalsOf

def ChildList.terminalsOf : ChildList → List (Option CompileId)
  | .nil => []
  | .cons _ node rest => node.terminal ++ node.terminalsBelow ++ rest.terminalsOf
end

/-- parsers.rs format_stack: render a stack as a one-branch trie with no
    terminals and no metrics index. -/
def format_stack (tbl : InternTable) (stack : StackSummary) : String :=
  StackTrieNode.fmt tbl (emptyTrie.insertNoTerminal stack) none

/-! lib.rs maybe_remove_convert_frame_suffixes.  Note the quirk kept from the
    source: len is read once before the loop over the two target triples, so
    after a successful truncation the second iteration compares an empty
    slice (vacuously equal) and re-truncates to the same length. -/

def targetTriples : List (List (String × String)) :=
  [ [ ("torch/_dynamo/convert_frame.py", "catch_errors"),
      ("torch/_dynamo/convert_frame.py", "_convert_frame"),
      ("torch/_dynamo/convert_frame.py", "_convert_frame_assert") ],
    [ ("torch/_dynamo/convert_frame.py", "__call__"),
      ("torch/_dynamo/convert_frame.py", "__call__"),
      ("torch/_dynamo/convert_frame.py", "__call__") ] ]

/-- The zipped all() check of the source: pointwise over the zip of the
    slice with the target (the zip truncates at the shorter list). -/
def suffixMatchesTarget (tbl : InternTable) (suffix : List FrameSummary)
    (target : List (String × String)) : Bool :=
  (suffix.zip target).all (fun p =>
    simplify_filename (unintern_str tbl p.1.filename) = p.2.1 && p.1.name = p.2.2)

def maybe_remove_convert_frame_suffixes (tbl : InternTable)
    (frames : List FrameSummary) : List FrameSummary :=
  let len := frames.length
  targetTriples.foldl
    (fun fs target =>
      if target.length ≤ len then
        if suffixMatchesTarget tbl (fs.drop (len - target.length)) target then
          fs.take (len - target.length)
        else fs
      else fs)
    frames

/-! Render contexts handed to the external template engine (types.rs context
    structs, with the fields the pipeline computes). -/

structure SymbolicShapeSpecializationContext where
  symbol : String
  sources : List String
  value : String
  user_stack_html : String
  stack_html : String
deriving DecidableEq, Repr

structure CompilationMetricsContext where
  m : CompilationMetricsMetadata
  compile_id : String
  stack_html : String
  mini_stack_html : String
  specializations : List SymbolicShapeSpecializationContext
  output_files : List OutputFile
  compile_id_dir : String
deriving DecidableEq, Repr

structure IndexContext where
  custom_header_html : String
  directory : List (String × List OutputFile)
  stack_trie_html : String
  unknown_stack_trie_html : String
  has_unknown_stack_trie : Bool
  num_breaks : Nat
  has_chromium_events : Bool
deriving DecidableEq, Repr

/-- The external collaborators of lib.rs, modelled as pure functions (the
    specification treats the template engine, the regex engine, serde_json,
    the md5 hasher and the syntax highlighter as external components defined
    by their interfaces):
    - glogPayload: the glog prefix regex; on a match, the payload capture
      suffix of the line.
    - decodeEnvelope: serde_json::from_str for Envelope (none on a parse
      error).
    - md5: the 16 digest bytes of a string.
    - jsonValue: serde_json::from_str for Value composed with
      to_string_pretty, i.e. the canonical re-rendering of a JSON document;
      none when the document does not parse (the empty string never parses).
    - guardsJson: serde_json::from_str for a list of DynamoGuard.
    - highlight: syntect HTML generation (none models an error).
    - render*: the tinytemplate render calls for the fixed templates. -/
structure Ext where
  glogPayload : String → Option String
  decodeEnvelope : String → Option Envelope
  md5 : String → List Nat
  jsonValue : String → Option String
  guardsJson : String → Option (List DynamoGuard)
  highlight : String → Option String
  renderGuards : List DynamoGuard → String
  renderCM : CompilationMetricsContext → String
  renderAot : String → String
  renderBwd : String → String
  renderFailures : List (String × String) → String
  renderJsonArray : List String → String
  renderIndex : IndexContext → String

/-- lib.rs ParseConfig (custom_parsers is modelled as empty: only the default
    analyzer set is embedded). -/
structure ParseConfig where
  strict : Bool := false
  strict_compile_id : Bool := false
  custom_header_html : String := ""
  verbose : Bool := false
  plain_text : Bool := false
deriving DecidableEq, Repr

/-- Errors that abort parse_path: fatal is an anyhow error returned as Err,
    abort is a Rust panic (the artifact analyzer unwraps a JSON parse). -/
inductive RunErr where
  | fatal (msg : String)
  | abort (msg : String)
deriving DecidableEq, Repr

/-! The per-run indices of parse_path. -/

abbrev Directory := List (Option CompileId × List OutputFile)

def dirHas : Directory → Option CompileId → Bool
  | [], _ => false
  | (k, _) :: rest, c => k = c || dirHas rest c

def dirLookup : Directory → Option CompileId → Option (List OutputFile)
  | [], _ => none
  | (k, v) :: rest, c => if k = c then some v else dirLookup rest c

def dirSet : Directory → Option CompileId → List OutputFile → Directory
  | [], _, _ => []
  | (k, v) :: rest, c, b => if k = c then (k, b) :: rest else (k, v) :: dirSet rest c b

abbrev StackIndex := List (Option CompileId × StackSummary)

def stackIndexLookup : StackIndex → Option CompileId → Option StackSummary
  | [], _ => none
  | (k, v) :: rest, c => if k = c then some v else stackIndexLookup rest c

def stackIndexInsert : StackIndex → Option CompileId → StackSummary → StackIndex
  | [], c, s => [(c, s)]
  | (k, v) :: rest, c, s =>
    if k = c then (k, s) :: rest else (k, v) :: stackIndexInsert rest c s

abbrev SpecIndex := List (Option CompileId × List SymbolicShapeSpecializationMetadata)

def specIndexPush : SpecIndex → Option CompileId → SymbolicShapeSpecializationMetadata → SpecIndex
  | [], c, m => [(c, [m])]
  | (k, v) :: rest, c, m =>
    if k = c then (k, v ++ [m]) :: rest else (k, v) :: specIndexPush rest c m

/-- HashMap::remove: the removed value (or none) and the map without the key. -/
def specIndexRemove : SpecIndex → Option CompileId →
    Option (List SymbolicShapeSpecializationMetadata) × SpecIndex
  | [], _ => (none, [])
  | (k, v) :: rest, c =>
    if k = c then (some v, rest)
    else
      let (r, m) := specIndexRemove rest c
      (r, (k, v) :: m)

/-- The mutable state of the parse_path loop.  The intern table is the
    process-wide table, threaded explicitly. -/
structure LoopState where
  stats : Stats := {}
  expectedRank : Option (Option Nat) := none
  directory : Directory := []
  metricsIndex : CompilationMetricsIndex := []
  stackIndex : StackIndex := []
  specIndex : SpecIndex := []
  output : List (String × String) := []
  outputCount : Int := 0
  breaks : List (String × String) := []
  chromiumEvents : List String := []
  stackTrie : StackTrieNode := emptyTrie
  unknownStackTrie : StackTrieNode := emptyTrie
  internTable : InternTable := []
deriving DecidableEq

/-! The dispatcher internals of lib.rs run_parser. -/

def listContainsSub (sub : List Char) : List Char → Bool
  | [] => sub.isEmpty
  | c :: r => sub.isPrefixOf (c :: r) || listContainsSub sub r

def strContains (s sub : String) : Bool := listContainsSub sub.data s.data

/-- run_parser extract_suffix: the cache badge derived from the filename. -/
def extract_suffix (filename : String) : String :=
  if strContains filename "fx_graph_cache_miss" then "❌"
  else if strContains filename "fx_graph_cache_hit" then "✅"
  else if strContains filename "fx_graph_cache_bypass" then "❓"
  else ""

/-- parsers.rs ParserOutput. -/
inductive ParserOutput where
  | file (path : String) (contents : String)
  | globalFile (path : String) (contents : String)
  | link (name : String) (url : String)
deriving DecidableEq, Repr

/-- The compile directory name used by simple_file_output and the metrics
    block. -/
def compileDirOf (lineno : Nat) : Option CompileId → String
  | none => "unknown_" ++ decStr lineno
  | some c =>
    decStr c.frame_id ++ "_" ++ decStr c.frame_compile_id ++ "_" ++ decStr c.attempt

/-- parsers.rs simple_file_output. -/
def simple_file_output (filename : String) (lineno : Nat) (cid : Option CompileId)
    (payload : String) : List ParserOutput :=
  [.file (pathJoin (compileDirOf lineno cid) filename) payload]

/-- The sub-state of run_parser: the shared output list, the current compile
    bucket, the global sequence counter, and the stats. -/
structure RunState where
  output : List (String × String)
  bucket : List OutputFile
  outputCount : Int
  stats : Stats
deriving DecidableEq

/-- run_parser, File arm: rename by appending _seq to the stem, emit the
    file, record the directory row, bump the counter. -/
def pushFileOutput (rs : RunState) (rawFilename contents : String) : RunState :=
  let filename :=
    match fileStemOf rawFilename with
    | some stem =>
      let r := stem ++ "_" ++ decInt rs.outputCount ++
        (match extensionOf rawFilename with
         | some e => "." ++ e
         | none => "")
      withFileName rawFilename r
    | none => rawFilename
  { rs with
    output := rs.output ++ [(filename, contents)]
    bucket := rs.bucket ++
      [{ url := filename, name := filename, number := rs.outputCount,
         suffix := extract_suffix filename }]
    outputCount := rs.outputCount + 1 }

/-- run_parser, GlobalFile arm: no renaming. -/
def pushGlobalOutput (rs : RunState) (filename contents : String) : RunState :=
  { rs with
    output := rs.output ++ [(filename, contents)]
    bucket := rs.bucket ++
      [{ url := filename, name := filename, number := rs.outputCount,
         suffix := extract_suffix filename }]
    outputCount := rs.outputCount + 1 }

/-- run_parser, Link arm: directory row only, no emitted file. -/
def pushLinkOutput (rs : RunState) (name url : String) : RunState :=
  { rs with
    bucket := rs.bucket ++
      [{ url := url, name := name, number := rs.outputCount, suffix := "" }]
    outputCount := rs.outputCount + 1 }

def applyParserOutput (rs : RunState) : ParserOutput → RunState
  | .file f c => pushFileOutput rs f c
  | .globalFile f c => pushGlobalOutput rs f c
  | .link n u => pushLinkOutput rs n u

def applyParserOutputs (rs : RunState) (outs : List ParserOutput) : RunState :=
  outs.foldl applyParserOutput rs

/-! parsers.rs: the default analyzer set. -/

/-- parsers.rs anchor_source: line-anchored HTML around the payload. -/
def anchorHeader : String :=
  "<!DOCTYPE html>\n<html lang=\"en\">\n<head>\n    <meta charset=\"UTF-8\">\n" ++
  "    <meta name=\"viewport\" content=\"width=device-width, initial-scale=1.0\">\n" ++
  "    <title>Source Code</title>\n    <style>\n        pre \x7b\n" ++
  "            counter-reset: line;\n        \x7d\n        pre span \x7b\n" ++
  "            display: block;\n        \x7d\n        pre span:before \x7b\n" ++
  "            counter-increment: line;\n            content: counter(line);\n" ++
  "            display: inline-block;\n            padding: 0 .5em;\n" ++
  "            margin-right: .5em;\n            color: #888;\n        \x7d\n" ++
  "        pre span:target \x7b\n            background-color: #ffff00;\n" ++
  "        \x7d\n    </style>\n</head>\n<body>\n    <pre>"

/-- Rust str::lines: split on newline, dropping a final empty piece and any
    trailing carriage returns. -/
def linesOf (s : String) : List String :=
  if s.data.isEmpty then []
  else
    let parts := splitStr s "\n"
    let parts := if strEnds s "\n" then parts.dropLast else parts
    parts.map (fun l => if strEnds l "\r" then ofCh l.data.dropLast else l)

def anchorSpans : Nat → List String → String
  | _, [] => ""
  | i, l :: rest =>
    "<span id=\"L" ++ decStr (i + 1) ++ "\">" ++ encode_text l ++ "</span>" ++
      anchorSpans (i + 1) rest

def anchor_source (text : String) : String :=
  anchorHeader ++ anchorSpans 0 (linesOf text) ++ "</pre></body></html>"

/-- The default analyzer list as an enumeration (parsers.rs
    default_parsers); the compilation metrics analyzer is constructed
    separately by the dispatcher. -/
inductive ParserId where
  | optimizeDdpSplitGraph
  | compiledAutogradGraph
  | aotForwardGraph
  | aotBackwardGraph
  | aotJointGraph
  | inductorPostGradGraph
  | dynamoCppGuardsStr
  | graphDump
  | dynamoOutputGraph
  | dynamoGuards
  | inductorOutputCode
  | optimizeDdpSplitChild
  | aotAutogradBackwardMetrics
  | bwdMetrics
  | linkKind
  | artifactKind
  | dumpFileKind
deriving DecidableEq, Repr

def defaultParsers : List ParserId :=
  [ .optimizeDdpSplitGraph, .compiledAutogradGraph, .aotForwardGraph,
    .aotBackwardGraph, .aotJointGraph, .inductorPostGradGraph,
    .dynamoCppGuardsStr, .graphDump, .dynamoOutputGraph, .dynamoGuards,
    .inductorOutputCode, .optimizeDdpSplitChild, .aotAutogradBackwardMetrics,
    .bwdMetrics, .linkKind, .artifactKind, .dumpFileKind ]

/-- The "(unknown) " / bracketed id string used by the metrics analyzers. -/
def plainIdOf : Option CompileId → String
  | some c => c.render ++ " "
  | none => "(unknown) "

/-- One run_parser call for one analyzer: when the analyzer recognizes the
    envelope, apply its outputs, or count its error; the artifact analyzer
    panics (aborts) on malformed json payloads. -/
def runOneParser (ext : Ext) (cfg : ParseConfig) (lineno : Nat) (e : Envelope)
    (payload : String) (rs : RunState) : ParserId → RunState × Option RunErr
  | .optimizeDdpSplitGraph =>
    if e.optimize_ddp_split_graph then
      (applyParserOutputs rs (simple_file_output "optimize_ddp_split_graph.txt" lineno e.compile_id payload), none)
    else (rs, none)
  | .compiledAutogradGraph =>
    if e.compiled_autograd_graph then
      (applyParserOutputs rs (simple_file_output "compiled_autograd_graph.txt" lineno e.compile_id payload), none)
    else (rs, none)
  | .aotForwardGraph =>
    if e.aot_forward_graph then
      (applyParserOutputs rs (simple_file_output "aot_forward_graph.txt" lineno e.compile_id payload), none)
    else (rs, none)
  | .aotBackwardGraph =>
    if e.aot_backward_graph then
      (applyParserOutputs rs (simple_file_output "aot_backward_graph.txt" lineno e.compile_id payload), none)
    else (rs, none)
  | .aotJointGraph =>
    if e.aot_joint_graph then
      (applyParserOutputs rs (simple_file_output "aot_joint_graph.txt" lineno e.compile_id payload), none)
    else (rs, none)
  | .inductorPostGradGraph =>
    if e.inductor_post_grad_graph then
      (applyParserOutputs rs (simple_file_output "inductor_post_grad_graph.txt" lineno e.compile_id payload), none)
    else (rs, none)
  | .dynamoCppGuardsStr =>
    if e.dynamo_cpp_guards_str then
      (applyParserOutputs rs (simple_file_output "dynamo_cpp_guards_str.txt" lineno e.compile_id payload), none)
    else (rs, none)
  | .graphDump =>
    match e.graph_dump with
    | some name =>
      (applyParserOutputs rs (simple_file_output (name ++ ".txt") lineno e.compile_id payload), none)
    | none => (rs, none)
  | .dynamoOutputGraph =>
    if e.dynamo_output_graph then
      (applyParserOutputs rs (simple_file_output "dynamo_output_graph.txt" lineno e.compile_id payload), none)
    else (rs, none)
  | .dynamoGuards =>
    if e.dynamo_guards then
      match ext.guardsJson payload with
      | some guards =>
        (applyParserOutputs rs
          (simple_file_output "dynamo_guards.html" lineno e.compile_id (ext.renderGuards guards)), none)
      | none =>
        ({ rs with stats := { rs.stats with fail_dynamo_guards_json := rs.stats.fail_dynamo_guards_json + 1 } }, none)
    else (rs, none)
  | .inductorOutputCode =>
    match e.inductor_output_code with
    | some mbFilename =>
      let filename :=
        match mbFilename.bind fileStemOf with
        | some stem =>
          "inductor_output_code_" ++ stem ++ (if cfg.plain_text then ".txt" else ".html")
        | none =>
          if cfg.plain_text then "inductor_output_code.txt" else "inductor_output_code.html"
      if cfg.plain_text then
        (applyParserOutputs rs (simple_file_output filename lineno e.compile_id payload), none)
      else
        match ext.highlight payload with
        | some html =>
          (applyParserOutputs rs (simple_file_output filename lineno e.compile_id html), none)
        | none =>
          ({ rs with stats := { rs.stats with failParser := rs.stats.failParser + 1 } }, none)
    | none => (rs, none)
  | .optimizeDdpSplitChild =>
    match e.optimize_ddp_split_child with
    | some name =>
      (applyParserOutputs rs
        (simple_file_output ("optimize_ddp_split_child_" ++ name ++ ".txt") lineno e.compile_id payload), none)
    | none => (rs, none)
  | .aotAutogradBackwardMetrics =>
    if e.aot_autograd_backward_compilation_metrics then
      (applyParserOutputs rs
        (simple_file_output "aot_autograd_backward_compilation_metrics.html" lineno e.compile_id
          (ext.renderAot (plainIdOf e.compile_id))), none)
    else (rs, none)
  | .bwdMetrics =>
    if e.bwd_compilation_metrics then
      (applyParserOutputs rs
        (simple_file_output "bwd_compilation_metrics.html" lineno e.compile_id
          (ext.renderBwd (plainIdOf e.compile_id))), none)
    else (rs, none)
  | .linkKind =>
    match e.link with
    | some (name, url) => (applyParserOutputs rs [.link name url], none)
    | none => (rs, none)
  | .artifactKind =>
    match e.artifact with
    | some (name, encoding) =>
      if encoding = "string" then
        (applyParserOutputs rs (simple_file_output (name ++ ".txt") lineno e.compile_id payload), none)
      else if encoding = "json" then
        match ext.jsonValue payload with
        | some pretty =>
          (applyParserOutputs rs (simple_file_output (name ++ ".json") lineno e.compile_id pretty), none)
        | none => (rs, some (.abort "artifact json unwrap"))
      else
        ({ rs with stats := { rs.stats with failParser := rs.stats.failParser + 1 } }, none)
    | none => (rs, none)
  | .dumpFileKind =>
    match e.dump_file with
    | some name =>
      let filename :=
        match extract_eval_with_key_id name with
        | some fx_id => "eval_with_key_" ++ decStr fx_id ++ ".html"
        | none => name ++ ".html"
      (applyParserOutputs rs [.globalFile (pathJoin "dump_file" filename) (anchor_source payload)], none)
    | none => (rs, none)

/-- Run the ordered analyzer list, stopping at the first abort. -/
def runParsersAll (ext : Ext) (cfg : ParseConfig) (lineno : Nat) (e : Envelope)
    (payload : String) : List ParserId → RunState → RunState × Option RunErr
  | [], rs => (rs, none)
  | pid :: rest, rs =>
    match runOneParser ext cfg lineno e payload rs pid with
    | (rs', none) => runParsersAll ext cfg lineno e payload rest rs'
    | (rs', some err) => (rs', some err)

/-- parsers.rs CompilationMetricsParser::parse: builds the render context
    (resolving the stack index and draining the specialization index at the
    zero-attempt compile id) and emits the compilation_metrics.html file. -/
def cmParse (ext : Ext) (tbl : InternTable) (lineno : Nat) (cid : Option CompileId)
    (m : CompilationMetricsMetadata) (stackIdx : StackIndex) (specIdx : SpecIndex)
    (copiedBucket : List OutputFile) (compileIdDir : String) :
    List ParserOutput × SpecIndex :=
  let id := plainIdOf cid
  let cidZ := cid.map (fun c => { c with attempt := 0 })
  let stack_html :=
    match stackIndexLookup stackIdx cidZ with
    | some st => format_stack tbl st
    | none => ""
  let mini_stack_html :=
    match m.co_name, m.co_filename, m.co_firstlineno with
    | some name, some filename, some line =>
      format_stack tbl
        [{ filename := 4294967295, line := line, name := name,
           uninterned_filename := some filename }]
    | _, _, _ => ""
  let (removed, specIdx2) := specIndexRemove specIdx cidZ
  let specializations :=
    (removed.getD []).map (fun spec =>
      { symbol := spec.symbol.getD ""
        sources := spec.sources.getD []
        value := spec.value.getD ""
        user_stack_html := format_stack tbl (spec.user_stack.getD [])
        stack_html := format_stack tbl (spec.stack.getD []) })
  let remove_prefix := fun (x : String) => String.join ((splitStr x "/").drop 1)
  let output_files := copiedBucket.map (fun o =>
    { o with url := remove_prefix o.url, name := remove_prefix o.name })
  let ctx : CompilationMetricsContext :=
    { m := m, compile_id := id, stack_html := stack_html,
      mini_stack_html := mini_stack_html, specializations := specializations,
      output_files := output_files, compile_id_dir := compileIdDir }
  (simple_file_output "compilation_metrics.html" lineno cid (ext.renderCM ctx), specIdx2)

/-- types.rs Display for FailureReason::Failure (the multi-line literal of
    the source, reproduced with its embedded indentation). -/
def failureRow (failure_type failure_reason user_frame_filename : String)
    (user_frame_lineno : Nat) : String :=
  "<td><pre>" ++ encode_text failure_type ++ "</pre></td>\n" ++
  "                           <td><pre>" ++ encode_text failure_reason ++ "</pre></td>\n" ++
  "                           <td><pre>" ++ encode_text user_frame_filename ++ ":" ++
  decStr user_frame_lineno ++ "</pre></td>\n                          "

/-- types.rs Display for FailureReason::Restart. -/
def restartRow (restart_reason : String) : String :=
  "<td> RestartAnalysis </td><td><pre>" ++ restart_reason ++
  "</pre></td><td>Not availble for restarts(yet)!</td>"

/-! The dispatcher body of parse_path for a surviving envelope: the line
    numbered lineno decoded to e with reconstructed payload, after the rank
    gate admitted it (lib.rs lines 355-482). -/

/-- The compilation-metrics built-in block (lib.rs lines 375-455).  Returns
    the updated run state, failure rows, metrics index and specialization
    index, or the fatal error raised when fail_type is present without
    fail_reason. -/
def metricsBlock (ext : Ext) (tbl : InternTable) (lineno : Nat) (e : Envelope)
    (rs : RunState) (breaks : List (String × String))
    (metricsIndex : CompilationMetricsIndex) (stackIdx : StackIndex)
    (specIdx : SpecIndex) :
    (RunState × List (String × String) × CompilationMetricsIndex × SpecIndex) × Option RunErr :=
  match e.compilation_metrics with
  | none => ((rs, breaks, metricsIndex, specIdx), none)
  | some m =>
    let copied := rs.bucket
    let compileIdDir := compileDirOf lineno e.compile_id
    let (outs, specIdx2) :=
      cmParse ext tbl lineno e.compile_id m stackIdx specIdx copied compileIdDir
    let rs := applyParserOutputs rs outs
    let metricsFilename := "compilation_metrics_" ++ decInt (rs.outputCount - 1) ++ ".html"
    let id :=
      match e.compile_id with
      | some c =>
        "<a href=\x27" ++ compileIdDir ++ "/" ++ metricsFilename ++ "\x27>" ++
          c.render ++ "</a> "
      | none => "(unknown) "
    let breaks := breaks ++
      ((m.restart_reasons.getD []).map (fun r => (id, restartRow r)))
    match m.fail_type with
    | some f =>
      match m.fail_reason with
      | none => ((rs, breaks, metricsIndex, specIdx2), some (.fatal "Fail reason not found"))
      | some reason =>
        let breaks := breaks ++
          [(id, failureRow f reason (m.fail_user_frame_filename.getD "N/A")
              (m.fail_user_frame_lineno.getD 0))]
        let cidZ := e.compile_id.map (fun c => { c with attempt := 0 })
        ((rs, breaks, cmIndexPush metricsIndex cidZ m, specIdx2), none)
    | none =>
      let cidZ := e.compile_id.map (fun c => { c with attempt := 0 })
      ((rs, breaks, cmIndexPush metricsIndex cidZ m, specIdx2), none)

/-- Processing of an envelope that survived decoding, the str shortcut and
    the rank gate. -/
def processSurvivor (ext : Ext) (cfg : ParseConfig) (st : LoopState) (lineno : Nat)
    (e : Envelope) (payload : String) : LoopState × Option RunErr :=
  let st := { st with stats := { st.stats with ok := st.stats.ok + 1 } }
  let directory0 :=
    if dirHas st.directory e.compile_id then st.directory
    else st.directory ++ [(e.compile_id, [])]
  let bucket := (dirLookup directory0 e.compile_id).getD []
  let rs : RunState :=
    { output := st.output, bucket := bucket, outputCount := st.outputCount,
      stats := st.stats }
  match runParsersAll ext cfg lineno e payload defaultParsers rs with
  | (rs, some err) =>
    ({ st with
        stats := rs.stats
        output := rs.output
        outputCount := rs.outputCount
        directory := dirSet directory0 e.compile_id rs.bucket }, some err)
  | (rs, none) =>
    match metricsBlock ext st.internTable lineno e rs st.breaks st.metricsIndex
        st.stackIndex st.specIndex with
    | ((rs, breaks, metricsIndex, specIdx), some err) =>
      ({ st with
          stats := rs.stats
          output := rs.output
          outputCount := rs.outputCount
          breaks := breaks
          metricsIndex := metricsIndex
          specIndex := specIdx
          directory := dirSet directory0 e.compile_id rs.bucket }, some err)
    | ((rs, breaks, metricsIndex, specIdx), none) =>
      let unknownStackTrie :=
        match e.stack with
        | some stack => st.unknownStackTrie.insert stack none
        | none => st.unknownStackTrie
      let chromiumResult : Option (List String) × Option RunErr :=
        if e.chromium_event then
          match ext.jsonValue payload with
          | some v => (some (st.chromiumEvents ++ [v]), none)
          | none => (none, some (.fatal "chromium event payload is not valid json"))
        else (some st.chromiumEvents, none)
      match chromiumResult with
      | (_, some err) =>
        ({ st with
            stats := rs.stats
            output := rs.output
            outputCount := rs.outputCount
            breaks := breaks
            metricsIndex := metricsIndex
            specIndex := specIdx
            unknownStackTrie := unknownStackTrie
            directory := dirSet directory0 e.compile_id rs.bucket }, some err)
      | (some chromiumEvents, none) =>
        let specIdx :=
          match e.symbolic_shape_specialization with
          | some sp => specIndexPush specIdx e.compile_id sp
          | none => specIdx
        let (stackIndex, stackTrie) :=
          match e.dynamo_start with
          | some (some stack0) =>
            let stack := maybe_remove_convert_frame_suffixes st.internTable stack0
            (stackIndexInsert st.stackIndex e.compile_id stack,
             st.stackTrie.insert stack e.compile_id)
          | _ => (st.stackIndex, st.stackTrie)
        ({ st with
            stats := rs.stats
            output := rs.output
            outputCount := rs.outputCount
            breaks := breaks
            metricsIndex := metricsIndex
            specIndex := specIdx
            unknownStackTrie := unknownStackTrie
            chromiumEvents := chromiumEvents
            stackIndex := stackIndex
            stackTrie := stackTrie
            directory := dirSet directory0 e.compile_id rs.bucket }, none)
      | (none, none) =>
        -- unreachable: chromiumResult always pairs none with an error
        (st, none)

/-- Is an enumerated line a payload continuation line (starts with a tab)? -/
def tabLine (p : Nat × String) : Bool := strStarts p.2 "\t"

/-- Strip the single leading tab byte of a continuation line. -/
def stripTab (p : Nat × String) : String := ofCh (p.2.data.drop 1)

def concatAll : List String → String
  | [] => ""
  | s :: r => s ++ concatAll r

/-- The reconstructed payload of a run of continuation lines: tab-stripped
    lines joined by a single newline. -/
def joinPayloadLines (ls : List (Nat × String)) : String :=
  match ls with
  | [] => ""
  | a :: rest => stripTab a ++ concatAll (rest.map (fun p => "\n" ++ stripTab p))

/-- The payload consumption loop of lib.rs lines 313-325: iter.next_if peels
    lines starting with a tab; each consumed line contributes a separating
    newline (except the first) and its tab-stripped text. -/
def consumePayloadAux (acc : String) (first : Bool) :
    List (Nat × String) → String × List (Nat × String)
  | [] => (acc, [])
  | (n, l) :: rest =>
    if strStarts l "\t" then
      consumePayloadAux (acc ++ (if first then "" else "\n") ++ ofCh (l.data.drop 1)) false rest
    else (acc, (n, l) :: rest)

def consumePayloadLines (rest : List (Nat × String)) : String × List (Nat × String) :=
  consumePayloadAux "" true rest

def bumpMd5 (st : LoopState) : LoopState :=
  { st with stats := { st.stats with fail_payload_md5 := st.stats.fail_payload_md5 + 1 } }

def bumpUnknown (st : LoopState) (n : Nat) : LoopState :=
  { st with stats := { st.stats with unknown := st.stats.unknown + n } }

/-- The digest verification of lib.rs lines 326-337: decode the declared
    digest into the 16-byte buffer and compare with the payload MD5; count a
    mismatch or a malformed digest, never dropping the record. -/
def digestCheck (ext : Ext) (st : LoopState) (e : Envelope) (payload : String) : LoopState :=
  match e.has_payload with
  | some expect =>
    match decodeDigest16 expect with
    | some buf => if buf ≠ ext.md5 payload then bumpMd5 st else st
    | none => bumpMd5 st
  | none => st

/-- The stage of processing after payload reconstruction: digest
    verification, the rank gate, then the survivor pipeline (lib.rs lines
    326-353 followed by 355-482). -/
def digestAndGate (ext : Ext) (cfg : ParseConfig) (st : LoopState) (lineno : Nat)
    (e : Envelope) (payload : String) : LoopState × Option RunErr :=
  let st := digestCheck ext st e payload
  match st.expectedRank with
  | some r =>
    if r ≠ e.rank then
      ({ st with stats := { st.stats with other_rank := st.stats.other_rank + 1 } }, none)
    else
      processSurvivor ext cfg st lineno e payload
  | none =>
    let st := { st with expectedRank := some e.rank }
    processSurvivor ext cfg st lineno e payload

/-- Processing of one decoded envelope: unknown-field accounting, the str
    interning shortcut, payload consumption, then digestAndGate.  Returns the
    state, the remaining line list, and an optional abort. -/
def processDecoded (ext : Ext) (cfg : ParseConfig) (st : LoopState) (lineno : Nat)
    (e : Envelope) (rest : List (Nat × String)) :
    LoopState × List (Nat × String) × Option RunErr :=
  let st := bumpUnknown st e.otherFields.length
  match e.str with
  | some (s, i) => ({ st with internTable := internInsert st.internTable i s }, rest, none)
  | none =>
    match e.has_payload with
    | some _ =>
      let (payload, rest') := consumePayloadLines rest
      let (st', err) := digestAndGate ext cfg st lineno e payload
      (st', rest', err)
    | none =>
      let (st', err) := digestAndGate ext cfg st lineno e ""
      (st', rest, err)

def bumpGlog (st : LoopState) : LoopState :=
  { st with stats := { st.stats with fail_glog := st.stats.fail_glog + 1 } }

def bumpJson (st : LoopState) : LoopState :=
  { st with stats := { st.stats with fail_json := st.stats.fail_json + 1 } }

/-- The main loop of parse_path over the enumerated, blank-filtered lines.
    The Nat fuel only encodes termination (the processed list shrinks by at
    least one line per step, so any fuel at least the list length gives the
    loop semantics); it keeps the recursion structural so that runs reduce in
    the kernel. -/
def runLines (ext : Ext) (cfg : ParseConfig) :
    Nat → LoopState → List (Nat × String) → LoopState × Option RunErr
  | _, st, [] => (st, none)
  | 0, st, _ :: _ => (st, none)
  | fuel + 1, st, (lineno, line) :: rest =>
    match ext.glogPayload line with
    | none => runLines ext cfg fuel (bumpGlog st) rest
    | some payloadStr =>
      match ext.decodeEnvelope payloadStr with
      | none => runLines ext cfg fuel (bumpJson st) rest
      | some e =>
        match processDecoded ext cfg st lineno e rest with
        | (st', _, some err) => (st', some err)
        | (st', rest', none) => runLines ext cfg fuel st' rest'

/-- Enumerate lines 1-based and filter out blank lines (lib.rs 249-259). -/
def numberLines (lines : List String) : List (Nat × String) :=
  ((List.range lines.length).zip lines).filterMap
    (fun p => if p.2.data.isEmpty then none else some (p.1 + 1, p.2))

/-- The four terminal outputs and the index context (lib.rs 483-524). -/
def finishOutput (ext : Ext) (cfg : ParseConfig) (raw : String) (st : LoopState) :
    List (String × String) :=
  let output := st.output ++
    [("failures_and_restarts.html", ext.renderFailures st.breaks)]
  let output := output ++
    [("chromium_events.json", ext.renderJsonArray st.chromiumEvents)]
  let idxCtx : IndexContext :=
    { custom_header_html := cfg.custom_header_html
      directory := st.directory.map (fun p =>
        ((p.1.map CompileId.render).getD "(unknown)", p.2))
      stack_trie_html := StackTrieNode.fmt st.internTable st.stackTrie (some st.metricsIndex)
      unknown_stack_trie_html :=
        StackTrieNode.fmt st.internTable st.unknownStackTrie (some st.metricsIndex)
      has_unknown_stack_trie := !st.unknownStackTrie.isEmpty
      num_breaks := st.breaks.length
      has_chromium_events := !st.chromiumEvents.isEmpty }
  let output := output ++ [("index.html", ext.renderIndex idxCtx)]
  output ++ [("raw.log", raw)]

/-- The sum of the six counters checked by strict mode. -/
def statsStrictSum (s : Stats) : Nat :=
  s.fail_glog + s.fail_json + s.fail_payload_md5 + s.other_rank +
    s.fail_dynamo_guards_json + s.failParser

/-- lib.rs parse_path.  isFile models path.is_file(); tbl is the state of
    the process-wide intern table on entry; the returned table is its state
    on exit (mutations survive even when an error is returned). -/
def parse_path (ext : Ext) (cfg : ParseConfig) (isFile : Bool) (tbl : InternTable)
    (raw : String) : Except RunErr (List (String × String)) × InternTable :=
  if !isFile then (.error (.fatal "not a file"), tbl)
  else
    let lines := numberLines (linesOf raw)
    let st0 : LoopState := { internTable := tbl }
    match runLines ext cfg lines.length st0 lines with
    | (st, some err) => (.error err, st.internTable)
    | (st, none) =>
      let hasUnknownCompileId := dirHas st.directory none
      let output := finishOutput ext cfg raw st
      if cfg.strict && decide (0 < statsStrictSum st.stats) then
        (.error (.fatal "Something went wrong"), st.internTable)
      else if cfg.strict_compile_id && hasUnknownCompileId then
        (.error (.fatal "Some log entries did not have compile id"), st.internTable)
      else
        (.ok output, st.internTable)

/-! Concrete instantiations of the external components, used by witnesses
    and counterexamples.  The envelope decode table is overridden per
    scenario; every point at which a scenario evaluates these functions is
    chosen to agree with what the real external crates do on that input
    (the empty string is not valid JSON, a prefix-matched glog line yields
    the payload suffix, and so on). -/

def demoGlogPrefix : String := "I1010 00:00:00.000000 1x:1] "

def extBase : Ext :=
  { glogPayload := fun l =>
      if strStarts l demoGlogPrefix then some (ofCh (l.data.drop demoGlogPrefix.data.length))
      else none
    decodeEnvelope := fun _ => none
    md5 := fun _ => List.replicate 16 1
    jsonValue := fun s => if s.data.isEmpty then none else some s
    guardsJson := fun _ => none
    highlight := fun s => some s
    renderGuards := fun _ => "<guards/>"
    renderCM := fun ctx => "<metrics>" ++ ctx.compile_id ++ ctx.stack_html ++ "</metrics>"
    renderAot := fun s => s
    renderBwd := fun s => s
    renderFailures := fun rows => "<failures>" ++ decStr rows.length ++ "</failures>"
    renderJsonArray := fun es => "[" ++ concatAll es ++ "]"
    renderIndex := fun ctx =>
      "<index>" ++ ctx.stack_trie_html ++ "|" ++ ctx.unknown_stack_trie_html ++ "|" ++
        decStr ctx.directory.length ++ "</index>" }

/-- An interning envelope that also declares a payload digest; the str
    shortcut of lib.rs (line 307) runs before payload consumption and the
    digest check, so neither happens for it. -/
def envStrWithPayload : Envelope := { str := some ("s", 1), has_payload := some "zz" }

/-! Claim C8: the convert-frame suffix trimmer. -/

/-- The tail condition of claim C8: the stack has at least three frames and
    its last three frames, with filenames resolved through the intern table
    and sandbox-simplified, exactly match one of the two known
    convert_frame.py triples. -/
def convertFrameTailMatches (tbl : InternTable) (frames : List FrameSummary) : Bool :=
  decide (3 ≤ frames.length) &&
    targetTriples.any (fun t => suffixMatchesTarget tbl (frames.drop (frames.length - 3)) t)

theorem suffixMatches_nil (tbl : InternTable) (t : List (String × String)) :
    suffixMatchesTarget tbl [] t = true := rfl

theorem take_drop_self (l : List FrameSummary) (n : Nat) :
    (l.take n).drop n = [] :=
  List.drop_eq_nil_of_le (by simp [List.length_take])

theorem len3 (x y z : String × String) : List.length [x, y, z] = 3 := rfl

/-- The trimmer either strips exactly the matched three-frame tail or leaves
    the stack untouched; the stale len read before the loop makes the second
    pass after a successful first truncation compare an empty slice, which
    vacuously re-truncates to the same length. -/
theorem maybe_remove_eq (tbl : InternTable) (frames : List FrameSummary) :
    maybe_remove_convert_frame_suffixes tbl frames =
      if convertFrameTailMatches tbl frames then frames.take (frames.length - 3)
      else frames := by
  unfold maybe_remove_convert_frame_suffixes convertFrameTailMatches targetTriples
  simp only [List.foldl_cons, List.foldl_nil, List.any_cons, List.any_nil,
    Bool.or_false, len3]
  by_cases hlen : 3 ≤ frames.length
  · rw [if_pos hlen, if_pos hlen]
    cases h1 : suffixMatchesTarget tbl (frames.drop (frames.length - 3))
        [("torch/_dynamo/convert_frame.py", "catch_errors"),
         ("torch/_dynamo/convert_frame.py", "_convert_frame"),
         ("torch/_dynamo/convert_frame.py", "_convert_frame_assert")] with
    | false =>
      cases h2 : suffixMatchesTarget tbl (frames.drop (frames.length - 3))
          [("torch/_dynamo/convert_frame.py", "__call__"),
           ("torch/_dynamo/convert_frame.py", "__call__"),
           ("torch/_dynamo/convert_frame.py", "__call__")] with
      | false => simp [hlen, h1, h2]
      | true => simp [hlen, h1, h2]
    | true =>
      simp [hlen, take_drop_self, suffixMatches_nil, List.take_take]
  · simp [hlen]

/-- C8: for every dynamo_start stack, if its last three frames, after
    intern-table resolution and sandbox-prefix simplification, exactly match
    one of the two known convert_frame.py triples, the stack inserted into
    the stack trie has exactly those three frames removed; otherwise it is
    inserted unchanged; and never are more than three frames removed from
    one stack. -/
theorem C8_convert_frame_trimming (tbl : InternTable) (frames : List FrameSummary) :
    (if convertFrameTailMatches tbl frames then
       maybe_remove_convert_frame_suffixes tbl frames = frames.take (frames.length - 3)
     else
       maybe_remove_convert_frame_suffixes tbl frames = frames)
    ∧ frames.length ≤ (maybe_remove_convert_frame_suffixes tbl frames).length + 3 := by
  rw [maybe_remove_eq]
  constructor
  · split <;> rfl
  · split
    · rename_i h
      have h3 : 3 ≤ frames.length := by
        simp [convertFrameTailMatches] at h
        exact h.1
      simp [List.length_take, Nat.min_eq_left (Nat.sub_le _ _)]
      omega
    · omega

/-! Claim C5: the payload digest is diagnostic, not blocking. -/

/-- C5 counterexample: the claim quantifies over every envelope declaring
    has_payload, but an interning (str) envelope is consumed by the str
    shortcut before payload consumption and the digest check, so its
    malformed digest ("zz" does not hex-decode) increments nothing and the
    following tab line is not consumed as its payload. -/
theorem C5_counterexample :
    decodeDigest16 "zz" = none ∧
    envStrWithPayload.has_payload = some "zz" ∧
    (processDecoded extBase {} {} 1 envStrWithPayload [(2, "\tx")]).1.stats.fail_payload_md5 = 0 ∧
    (processDecoded extBase {} {} 1 envStrWithPayload [(2, "\tx")]).2.1 = [(2, "\tx")] := by
  decide

/-- C5 (amended to envelopes that are not interning records): for every
    non-str envelope declaring has_payload, when the declared digest either
    fails to decode or decodes to bytes different from the MD5 of the
    reconstructed payload, processing equals that of the same record carrying
    a correct digest started from a state whose fail_payload_md5 counter is
    one higher: exactly that counter is incremented, and the record is not
    dropped — its analyzer outputs still appear. -/
theorem C5_digest_diagnostic (ext : Ext) (cfg : ParseConfig) (st : LoopState) (lineno : Nat)
    (e : Envelope) (rest : List (Nat × String)) (d d' : String)
    (hstr : e.str = none) (hp : e.has_payload = some d)
    (hbad : ∀ b, decodeDigest16 d = some b → b ≠ ext.md5 (consumePayloadLines rest).1)
    (hgood : decodeDigest16 d' = some (ext.md5 (consumePayloadLines rest).1)) :
    processDecoded ext cfg st lineno e rest =
      processDecoded ext cfg (bumpMd5 st) lineno { e with has_payload := some d' } rest
    ∧ bumpMd5 st =
      { st with stats := { st.stats with fail_payload_md5 := st.stats.fail_payload_md5 + 1 } } := by
  have hxx : ¬(ext.md5 (consumePayloadLines rest).1 ≠ ext.md5 (consumePayloadLines rest).1) :=
    fun h => h rfl
  refine ⟨?_, rfl⟩
  unfold processDecoded
  simp only [hstr, hp]
  unfold digestAndGate digestCheck
  simp only [hstr, hp, hgood]
  cases hdec : decodeDigest16 d with
  | none =>
    simp only [hdec]
    rw [if_neg hxx]
    rfl
  | some b =>
    simp only [hdec]
    rw [if_pos (hbad b hdec), if_neg hxx]
    rfl

def envC5 : Envelope := { has_payload := some "zz" }

def goodDigest16 : String := "01010101010101010101010101010101"

/-- Witness for C5_digest_diagnostic at a concrete malformed digest. -/
theorem C5_witness :
    envC5.str = none ∧ envC5.has_payload = some "zz" ∧
    decodeDigest16 goodDigest16 = some (extBase.md5 (consumePayloadLines [(2, "\tx")]).1) ∧
    processDecoded extBase {} {} 1 envC5 [(2, "\tx")] =
      processDecoded extBase {} (bumpMd5 {}) 1
        { envC5 with has_payload := some goodDigest16 } [(2, "\tx")] :=
  ⟨rfl, rfl, by decide,
    (C5_digest_diagnostic extBase {} {} 1 envC5 [(2, "\tx")] "zz" goodDigest16 rfl rfl
      (fun b h => by
        rw [show decodeDigest16 "zz" = none from by decide] at h
        exact Option.noConfusion h)
      (by decide)).1⟩

/-! Claim C9: payload consumption.  The next_if loop equals
    takeWhile/dropWhile on the tab predicate. -/

theorem consumeAux_false (rest : List (Nat × String)) :
    ∀ acc, consumePayloadAux acc false rest =
      (acc ++ concatAll ((rest.takeWhile tabLine).map (fun p => "\n" ++ stripTab p)),
       rest.dropWhile tabLine) := by
  induction rest with
  | nil =>
    intro acc
    simp [consumePayloadAux, concatAll, String.append_empty]
  | cons x xs ih =>
    intro acc
    cases x with
    | mk n l =>
      by_cases hx : strStarts l "\t" = true
      · simp only [consumePayloadAux, hx, if_true, ih, List.takeWhile_cons,
          List.dropWhile_cons, tabLine, List.map_cons, concatAll]
        simp [stripTab, String.append_assoc]
      · simp only [consumePayloadAux, hx, if_false, List.takeWhile_cons,
          List.dropWhile_cons, tabLine]
        simp [hx, concatAll, String.append_empty]

/-- The payload consumption loop consumes exactly the maximal run of
    tab-prefixed lines and joins their tab-stripped texts with single
    newlines. -/
theorem consume_spec (rest : List (Nat × String)) :
    consumePayloadLines rest =
      (joinPayloadLines (rest.takeWhile tabLine), rest.dropWhile tabLine) := by
  cases rest with
  | nil => rfl
  | cons x xs =>
    cases x with
    | mk n l =>
      by_cases hx : strStarts l "\t" = true
      · unfold consumePayloadLines consumePayloadAux
        simp only [hx, if_true]
        rw [consumeAux_false]
        simp [joinPayloadLines, List.takeWhile_cons, List.dropWhile_cons, tabLine, hx, stripTab]
      · unfold consumePayloadLines consumePayloadAux
        simp only [hx, if_false]
        simp [joinPayloadLines, List.takeWhile_cons, List.dropWhile_cons, tabLine, hx]

/-- C9 counterexample: an interning (str) envelope declaring has_payload
    does not consume the tab-prefixed line that follows it (the str shortcut
    runs before payload consumption), contradicting the claim's universal
    quantification over every envelope declaring has_payload. -/
theorem C9_counterexample :
    tabLine (2, "\tx") = true ∧
    envStrWithPayload.has_payload.isSome = true ∧
    (processDecoded extBase {} {} 1 envStrWithPayload [(2, "\tx")]).2.1 = [(2, "\tx")] := by
  decide

/-- C9 (amended to envelopes that are not interning records): for every
    non-str envelope declaring has_payload, the lines consumed as its
    payload are exactly the maximal run of tab-prefixed lines following it
    (joined tab-stripped with single newlines), the loop continues on the
    remainder, and — since the statement holds for every state, in
    particular any rank-gate state — the consumption happens even when the
    envelope is subsequently dropped by the rank gate, so no continuation
    line is ever attached to any other envelope. -/
theorem C9_payload_consumption (ext : Ext) (cfg : ParseConfig) (st : LoopState)
    (lineno : Nat) (e : Envelope) (rest : List (Nat × String)) (d : String)
    (hstr : e.str = none) (hp : e.has_payload = some d) :
    processDecoded ext cfg st lineno e rest =
      ((digestAndGate ext cfg (bumpUnknown st e.otherFields.length) lineno e
          (joinPayloadLines (rest.takeWhile tabLine))).1,
       rest.dropWhile tabLine,
       (digestAndGate ext cfg (bumpUnknown st e.otherFields.length) lineno e
          (joinPayloadLines (rest.takeWhile tabLine))).2) := by
  unfold processDecoded
  simp only [hstr, hp, consume_spec]

/-- Witness for C9_payload_consumption at a concrete two-line tail. -/
theorem C9_witness :
    envC5.str = none ∧ envC5.has_payload = some "zz" ∧
    processDecoded extBase {} {} 1 envC5 [(2, "\ta"), (3, "b")] =
      ((digestAndGate extBase {} (bumpUnknown {} envC5.otherFields.length) 1 envC5
          (joinPayloadLines ([(2, "\ta"), (3, "b")].takeWhile tabLine))).1,
       [(2, "\ta"), (3, "b")].dropWhile tabLine,
       (digestAndGate extBase {} (bumpUnknown {} envC5.otherFields.length) 1 envC5
          (joinPayloadLines ([(2, "\ta"), (3, "b")].takeWhile tabLine))).2) :=
  ⟨rfl, rfl,
    C9_payload_consumption extBase {} {} 1 envC5 [(2, "\ta"), (3, "b")] "zz" rfl rfl⟩

/-! Claim C6: the rank gate. -/

theorem survivor_expectedRank (ext : Ext) (cfg : ParseConfig) (st : LoopState)
    (lineno : Nat) (e : Envelope) (payload : String) :
    (processSurvivor ext cfg st lineno e payload).1.expectedRank = st.expectedRank := by
  unfold processSurvivor
  dsimp only []
  repeat' split
  all_goals rfl

theorem digestCheck_expectedRank (ext : Ext) (st : LoopState) (e : Envelope) (payload : String) :
    (digestCheck ext st e payload).expectedRank = st.expectedRank := by
  unfold digestCheck
  repeat' split
  all_goals rfl

def envStrRank5 : Envelope := { str := some ("a", 1), rank := some 5 }

def envEmpty : Envelope := {}

def extC6 : Ext :=
  { extBase with
    decodeEnvelope := fun p =>
      if p = "\x7b\"str\": [\"a\", 1], \"rank\": 5\x7d" then some envStrRank5
      else if p = "\x7b\x7d" then some envEmpty
      else none }

def rawC6 : String :=
  demoGlogPrefix ++ "\x7b\"str\": [\"a\", 1], \"rank\": 5\x7d\n" ++
    demoGlogPrefix ++ "\x7b\x7d\n"

/-- C6 counterexample: the first envelope that survives decoding is an
    interning record carrying rank 5, but the gate never sees it (the str
    shortcut precedes the gate); the code latches on the second envelope's
    absent rank and admits it, where the claim predicts a latched rank of 5
    and an other_rank drop. -/
theorem C6_counterexample :
    extC6.decodeEnvelope "\x7b\"str\": [\"a\", 1], \"rank\": 5\x7d" = some envStrRank5 ∧
    envStrRank5.rank = some 5 ∧ envEmpty.rank = none ∧
    (runLines extC6 {} 2 { internTable := [] } (numberLines (linesOf rawC6))).1.expectedRank
      = some none ∧
    (runLines extC6 {} 2 { internTable := [] } (numberLines (linesOf rawC6))).1.stats.other_rank
      = 0 ∧
    (runLines extC6 {} 2 { internTable := [] } (numberLines (linesOf rawC6))).1.stats.ok = 1 := by
  decide

/-- C6 (amended: the gate latches on the first decoded envelope that is not
    an interning record): (1) when the gate is unlatched, processing a
    non-str envelope latches the expected rank to that envelope's rank
    (possibly none); (2) a latched gate drops an envelope with a different
    rank touching nothing but the digest counter and other_rank — no
    analyzer runs; (3) a latched gate admits an envelope with the matching
    rank (so a latched none admits exactly the rank-less envelopes). -/
theorem C6_rank_gate (ext : Ext) (cfg : ParseConfig) :
    (∀ (st : LoopState) (lineno : Nat) (e : Envelope) (rest : List (Nat × String)),
      st.expectedRank = none → e.str = none →
      (processDecoded ext cfg st lineno e rest).1.expectedRank = some e.rank)
    ∧ (∀ (st : LoopState) (lineno : Nat) (e : Envelope) (payload : String) (r : Option Nat),
      st.expectedRank = some r → r ≠ e.rank →
      digestAndGate ext cfg st lineno e payload =
        ({ digestCheck ext st e payload with
            stats := { (digestCheck ext st e payload).stats with
                        other_rank := (digestCheck ext st e payload).stats.other_rank + 1 } },
         none))
    ∧ (∀ (st : LoopState) (lineno : Nat) (e : Envelope) (payload : String) (r : Option Nat),
      st.expectedRank = some r → r = e.rank →
      digestAndGate ext cfg st lineno e payload =
        processSurvivor ext cfg (digestCheck ext st e payload) lineno e payload) := by
  refine ⟨?_, ?_, ?_⟩
  · intro st lineno e rest hrank hstr
    unfold processDecoded
    simp only [hstr]
    cases hp : e.has_payload with
    | none =>
      dsimp only []
      unfold digestAndGate
      have h2 : (digestCheck ext (bumpUnknown st e.otherFields.length) e "").expectedRank = none :=
        (digestCheck_expectedRank _ _ _ _).trans hrank
      dsimp only []
      rw [h2, survivor_expectedRank]
    | some d =>
      dsimp only []
      unfold digestAndGate
      have h2 : (digestCheck ext (bumpUnknown st e.otherFields.length) e
          (consumePayloadLines rest).1).expectedRank = none :=
        (digestCheck_expectedRank _ _ _ _).trans hrank
      dsimp only []
      rw [h2, survivor_expectedRank]
  · intro st lineno e payload r hrank hne
    unfold digestAndGate
    have h2 : (digestCheck ext st e payload).expectedRank = some r :=
      (digestCheck_expectedRank _ _ _ _).trans hrank
    dsimp only []
    rw [h2]
    dsimp only []
    rw [if_pos hne]
  · intro st lineno e payload r hrank heq
    unfold digestAndGate
    have h2 : (digestCheck ext st e payload).expectedRank = some r :=
      (digestCheck_expectedRank _ _ _ _).trans hrank
    dsimp only []
    rw [h2]
    dsimp only []
    rw [if_neg (by simp [heq])]

def stLatched5 : LoopState := { expectedRank := some (some 5) }

/-- Witness for C6_rank_gate: latch on an empty envelope; drop a rank-less
    envelope under a latched rank 5; admit it under a latched none. -/
theorem C6_witness :
    ({} : LoopState).expectedRank = none ∧ envEmpty.str = none ∧
    (processDecoded extBase {} {} 1 envEmpty []).1.expectedRank = some envEmpty.rank ∧
    stLatched5.expectedRank = some (some 5) ∧ (some 5 : Option Nat) ≠ envEmpty.rank ∧
    digestAndGate extBase {} stLatched5 1 envEmpty "" =
      ({ digestCheck extBase stLatched5 envEmpty "" with
          stats := { (digestCheck extBase stLatched5 envEmpty "").stats with
                      other_rank :=
                        (digestCheck extBase stLatched5 envEmpty "").stats.other_rank + 1 } },
       none) ∧
    digestAndGate extBase {} { expectedRank := some none } 1 envEmpty "" =
      processSurvivor extBase {}
        (digestCheck extBase { expectedRank := some none } envEmpty "") 1 envEmpty "" :=
  ⟨rfl, rfl,
    (C6_rank_gate extBase {}).1 {} 1 envEmpty [] rfl rfl,
    rfl, by decide,
    (C6_rank_gate extBase {}).2.1 stLatched5 1 envEmpty "" (some 5) rfl (by decide),
    (C6_rank_gate extBase {}).2.2 { expectedRank := some none } 1 envEmpty "" none rfl rfl⟩

/-! Claim C1: fatality analysis of parse_path.  The ingestion loop can in
    fact abort: the compilation-metrics block propagates an error when
    fail_type is present without fail_reason (lib.rs 430-434), and the
    chromium_event push propagates a JSON parse error of the payload
    (lib.rs 462).  These two are the only fatal (Err-returning) conditions
    inside the loop; analyzer failures only count (the artifact analyzer's
    unwrap is a panic, modelled as RunErr.abort, not a returned Err). -/

theorem runOneParser_no_fatal (ext : Ext) (cfg : ParseConfig) (lineno : Nat)
    (e : Envelope) (payload : String) (rs : RunState) (pid : ParserId) (m : String) :
    (runOneParser ext cfg lineno e payload rs pid).2 ≠ some (.fatal m) := by
  cases pid <;> (unfold runOneParser; repeat' split) <;> simp

theorem runParsersAll_no_fatal (ext : Ext) (cfg : ParseConfig) (lineno : Nat)
    (e : Envelope) (payload : String) (ps : List ParserId) (rs : RunState) (m : String) :
    (runParsersAll ext cfg lineno e payload ps rs).2 ≠ some (.fatal m) := by
  induction ps generalizing rs with
  | nil => simp [runParsersAll]
  | cons p rest ih =>
    unfold runParsersAll
    cases hp : runOneParser ext cfg lineno e payload rs p with
    | mk rs' err =>
      cases err with
      | none => exact ih rs'
      | some er =>
        have := runOneParser_no_fatal ext cfg lineno e payload rs p m
        rw [hp] at this
        simpa using this

theorem metricsBlock_fatal (ext : Ext) (tbl : InternTable) (lineno : Nat) (e : Envelope)
    (rs : RunState) (breaks : List (String × String)) (mi : CompilationMetricsIndex)
    (si : StackIndex) (sp : SpecIndex) (m : String)
    (h : (metricsBlock ext tbl lineno e rs breaks mi si sp).2 = some (.fatal m)) :
    ∃ mm, e.compilation_metrics = some mm ∧ mm.fail_type.isSome ∧ mm.fail_reason = none := by
  unfold metricsBlock at h
  revert h
  repeat' split
  all_goals intro h
  all_goals simp_all

/-- The payload string handed to the survivor pipeline for an envelope e
    with remaining lines rest. -/
def payloadOf (e : Envelope) (rest : List (Nat × String)) : String :=
  match e.has_payload with
  | some _ => (consumePayloadLines rest).1
  | none => ""

theorem survivor_fatal (ext : Ext) (cfg : ParseConfig) (st : LoopState) (lineno : Nat)
    (e : Envelope) (payload : String) (m : String)
    (h : (processSurvivor ext cfg st lineno e payload).2 = some (.fatal m)) :
    (∃ mm, e.compilation_metrics = some mm ∧ mm.fail_type.isSome ∧ mm.fail_reason = none) ∨
    (e.chromium_event = true ∧ ext.jsonValue payload = none) := by
  unfold processSurvivor at h
  revert h
  dsimp only []
  split
  · rename_i rs err heq
    intro h
    exfalso
    simp only [] at h
    have h2 := runParsersAll_no_fatal ext cfg lineno e payload defaultParsers
      { output := st.output,
        bucket :=
          (dirLookup
              (if dirHas st.directory e.compile_id = true then st.directory
               else st.directory ++ [(e.compile_id, [])]) e.compile_id).getD [],
        outputCount := st.outputCount,
        stats := { st.stats with ok := st.stats.ok + 1 } } m
    rw [heq] at h2
    simp at h
    simp [h] at h2
  · split
    · rename_i hmb
      intro h
      simp at h
      left
      exact metricsBlock_fatal ext st.internTable lineno e _ st.breaks st.metricsIndex
        st.stackIndex st.specIndex m (by rw [hmb, h])
    · split
      · rename_i heqc
        intro h
        right
        revert heqc
        split
        · split
          · intro hc; simp at hc
          · rename_i hjson
            intro hc
            simp at hc
            exact ⟨by assumption, hjson⟩
        · intro hc; simp at hc
      · intro h; simp at h
      · intro h; simp at h

theorem digestAndGate_fatal (ext : Ext) (cfg : ParseConfig) (st : LoopState) (lineno : Nat)
    (e : Envelope) (payload : String) (m : String)
    (h : (digestAndGate ext cfg st lineno e payload).2 = some (.fatal m)) :
    (∃ mm, e.compilation_metrics = some mm ∧ mm.fail_type.isSome ∧ mm.fail_reason = none) ∨
    (e.chromium_event = true ∧ ext.jsonValue payload = none) := by
  unfold digestAndGate at h
  revert h
  dsimp only []
  split
  · split
    · intro h; simp at h
    · intro h; exact survivor_fatal ext cfg _ lineno e payload m h
  · intro h; exact survivor_fatal ext cfg _ lineno e payload m h

theorem processDecoded_fatal (ext : Ext) (cfg : ParseConfig) (st : LoopState) (lineno : Nat)
    (e : Envelope) (rest : List (Nat × String)) (m : String)
    (h : (processDecoded ext cfg st lineno e rest).2.2 = some (.fatal m)) :
    (∃ mm, e.compilation_metrics = some mm ∧ mm.fail_type.isSome ∧ mm.fail_reason = none) ∨
    (e.chromium_event = true ∧ ext.jsonValue (payloadOf e rest) = none) := by
  unfold processDecoded at h
  revert h
  dsimp only []
  split
  · intro h; simp at h
  · unfold payloadOf
    split
    · intro h
      exact digestAndGate_fatal ext cfg _ lineno e _ m h
    · intro h
      exact digestAndGate_fatal ext cfg _ lineno e _ m h

theorem parse_path_ok_of_clean (ext : Ext) (cfg : ParseConfig) (tbl : InternTable)
    (raw : String) (st : LoopState)
    (h1 : cfg.strict = false) (h2 : cfg.strict_compile_id = false)
    (hrun : runLines ext cfg (numberLines (linesOf raw)).length { internTable := tbl }
      (numberLines (linesOf raw)) = (st, none)) :
    (parse_path ext cfg true tbl raw).1 = .ok (finishOutput ext cfg raw st) := by
  unfold parse_path
  dsimp only []
  rw [hrun]
  simp [h1, h2]

def envChromiumEv : Envelope := { chromium_event := true }

def extC1 : Ext :=
  { extBase with
    decodeEnvelope := fun p =>
      if p = "\x7b\"chromium_event\": \x7b\x7d\x7d" then some envChromiumEv else none }

def rawC1 : String := demoGlogPrefix ++ "\x7b\"chromium_event\": \x7b\x7d\x7d\n"

/-- C1 counterexample: a regular file whose only record is a chromium_event
    envelope with no payload makes parse_path return Err even though both
    strict flags are off: the empty payload is not valid JSON and the
    question-mark on the chromium push aborts ingestion, contradicting the
    claim that no decoded record can make the function return Err. -/
theorem C1_counterexample :
    ({} : ParseConfig).strict = false ∧ ({} : ParseConfig).strict_compile_id = false ∧
    extBase.jsonValue "" = none ∧
    (parse_path extC1 {} true [] rawC1).1 =
      .error (.fatal "chromium event payload is not valid json") := by
  decide

/-- C1 (amended): with strict flags off, parse_path returns Ok whenever the
    ingestion loop finishes without a fatal error; a step of the loop can
    only end in a returned Err for exactly two record conditions — a
    compilation_metrics record with fail_type present but fail_reason
    absent, or a chromium_event record whose consumed payload is not valid
    JSON; and a path that is not a regular file always yields Err.  (The
    artifact analyzer's unwrap on a malformed json-encoded payload is a
    panic, not a returned Err, and is excluded here.) -/
theorem C1_fatal_conditions :
    (∀ (ext : Ext) (cfg : ParseConfig) (tbl : InternTable) (raw : String) (st : LoopState),
      cfg.strict = false → cfg.strict_compile_id = false →
      runLines ext cfg (numberLines (linesOf raw)).length { internTable := tbl }
        (numberLines (linesOf raw)) = (st, none) →
      (parse_path ext cfg true tbl raw).1 = .ok (finishOutput ext cfg raw st))
    ∧ (∀ (ext : Ext) (cfg : ParseConfig) (st : LoopState) (lineno : Nat) (e : Envelope)
        (rest : List (Nat × String)) (m : String),
      (processDecoded ext cfg st lineno e rest).2.2 = some (.fatal m) →
      (∃ mm, e.compilation_metrics = some mm ∧ mm.fail_type.isSome ∧ mm.fail_reason = none) ∨
      (e.chromium_event = true ∧ ext.jsonValue (payloadOf e rest) = none))
    ∧ (∀ (ext : Ext) (cfg : ParseConfig) (tbl : InternTable) (raw : String),
      (parse_path ext cfg false tbl raw).1 = .error (.fatal "not a file")) :=
  ⟨fun ext cfg tbl raw st h1 h2 hrun => parse_path_ok_of_clean ext cfg tbl raw st h1 h2 hrun,
   fun ext cfg st lineno e rest m h => processDecoded_fatal ext cfg st lineno e rest m h,
   fun _ _ _ _ => rfl⟩

/-- Witness for C1_fatal_conditions: the empty file parses cleanly to Ok;
    the chromium record with an empty payload is a fatal step whose
    condition is the chromium disjunct; a non-file errors. -/
theorem C1_witness :
    (parse_path extBase {} true [] "").1 =
      .ok (finishOutput extBase {} "" { internTable := ([] : InternTable) }) ∧
    ((∃ mm, envChromiumEv.compilation_metrics = some mm ∧ mm.fail_type.isSome ∧
        mm.fail_reason = none) ∨
      (envChromiumEv.chromium_event = true ∧
        extBase.jsonValue (payloadOf envChromiumEv []) = none)) ∧
    (parse_path extBase {} false [] "x").1 = .error (.fatal "not a file") :=
  ⟨C1_fatal_conditions.1 extBase {} [] "" { internTable := ([] : InternTable) } rfl rfl (by decide),
   C1_fatal_conditions.2.1 extBase {} {} 1 envChromiumEv []
     "chromium event payload is not valid json" (by decide),
   C1_fatal_conditions.2.2 extBase {} [] "x"⟩

/-! Claim C3: the stack index key.  The type alias comment in types.rs
    (line 18) documents that the attempt of a StackIndex key "is always 0",
    and the metrics renderer looks the stack up under the zero-attempt key
    (parsers.rs 377-385), but lib.rs 476-478 inserts under the envelope's
    compile id with its original attempt. -/

def frC3 : FrameSummary := { filename := 1, line := 5, name := "f" }

def envDynC3 : Envelope :=
  { compile_id := some ⟨0, 0, 1⟩, dynamo_start := some (some [frC3]) }

def envMetC3 : Envelope :=
  { compile_id := some ⟨0, 0, 1⟩, compilation_metrics := some {} }

def jsonDynC3 : String :=
  "\x7b\"frame_id\": 0, \"frame_compile_id\": 0, \"attempt\": 1, " ++
    "\"dynamo_start\": \x7b\"stack\": [\x7b\"filename\": 1, \"line\": 5, " ++
    "\"name\": \"f\"\x7d]\x7d\x7d"

def jsonMetC3 : String :=
  "\x7b\"frame_id\": 0, \"frame_compile_id\": 0, \"attempt\": 1, " ++
    "\"compilation_metrics\": \x7b\x7d\x7d"

def extC3 : Ext :=
  { extBase with
    decodeEnvelope := fun p =>
      if p = jsonDynC3 then some envDynC3
      else if p = jsonMetC3 then some envMetC3
      else none }

def rawC3 : String :=
  demoGlogPrefix ++ jsonDynC3 ++ "\n" ++ demoGlogPrefix ++ jsonMetC3 ++ "\n"

def runC3 : LoopState :=
  (runLines extC3 {} 2 { internTable := [] } (numberLines (linesOf rawC3))).1

set_option maxRecDepth 4000 in
/-- C3: evaluating the code at the failing input (a dynamo_start with
    attempt 1 followed by a compilation_metrics for the same frame): the
    stack is stored in the stack index under the compile id with attempt 1,
    the zero-attempt lookup performed by the metrics renderer finds nothing,
    and the rendered compilation_metrics page gets an empty stack_html
    (visible here as the render context containing no stack markup). -/
theorem C3_stack_index_attempt :
    runC3.stackIndex = [(some ⟨0, 0, 1⟩, [frC3])] ∧
    stackIndexLookup runC3.stackIndex (some ⟨0, 0, 0⟩) = none ∧
    runC3.output = [("0_0_1/compilation_metrics_0.html", "<metrics>[0/0_1] </metrics>")] := by
  decide

/-! Claim C4: strict-mode error conditions. -/

def cfgSCID : ParseConfig := { strict_compile_id := true }

def cfgStrict : ParseConfig := { strict := true }

def rawEmptyEnv : String := demoGlogPrefix ++ "\x7b\x7d\n"

/-- C4 counterexample: (a) with strict_compile_id on, a surviving envelope
    with no compile id creates the None directory key with an empty bucket —
    no OutputFile was attributed to it — yet parse_path errors (the code
    tests key presence, not bucket non-emptiness); (b) with strict on, a
    chromium_event record with no payload makes parse_path error although the
    six strict counters are all zero at that point, so neither iff of the
    claim holds as stated. -/
theorem C4_counterexample :
    (runLines extC6 cfgSCID 1 { internTable := [] }
        (numberLines (linesOf rawEmptyEnv))).1.directory = [(none, [])] ∧
    (parse_path extC6 cfgSCID true [] rawEmptyEnv).1 =
      .error (.fatal "Some log entries did not have compile id") ∧
    statsStrictSum (runLines extC1 cfgStrict 1 { internTable := [] }
        (numberLines (linesOf rawC1))).1.stats = 0 ∧
    (parse_path extC1 cfgStrict true [] rawC1).1 =
      .error (.fatal "chromium event payload is not valid json") := by
  decide

/-- C4 (amended): provided ingestion finishes without a fatal error,
    parse_path on a regular file returns an error iff strict is set and the
    sum of the six counters (fail_glog, fail_json, fail_payload_md5,
    other_rank, fail_dynamo_guards_json, fail_parser — never unknown) is
    positive, or strict_compile_id is set and the None key is present in the
    directory, i.e. some surviving non-interning envelope had no compile id
    (whether or not any OutputFile was stored under it). -/
theorem C4_strict_conditions (ext : Ext) (cfg : ParseConfig) (tbl : InternTable)
    (raw : String) (st : LoopState)
    (hrun : runLines ext cfg (numberLines (linesOf raw)).length { internTable := tbl }
      (numberLines (linesOf raw)) = (st, none)) :
    (∃ er, (parse_path ext cfg true tbl raw).1 = .error er) ↔
      ((cfg.strict = true ∧ 0 < statsStrictSum st.stats) ∨
       (cfg.strict_compile_id = true ∧ dirHas st.directory none = true)) := by
  unfold parse_path
  dsimp only []
  rw [hrun]
  by_cases h1 : cfg.strict = true <;> by_cases h2 : 0 < statsStrictSum st.stats <;>
    by_cases h3 : cfg.strict_compile_id = true <;>
    by_cases h4 : dirHas st.directory none = true <;>
    simp [h1, h2, h3, h4]

def rawJunk : String := "junk\n"

/-- Witness for C4_strict_conditions: a one-line file that fails the glog
    regex under strict mode. -/
theorem C4_witness :
    runLines extBase cfgStrict 1 { internTable := ([] : InternTable) }
        (numberLines (linesOf rawJunk)) =
      (bumpGlog { internTable := ([] : InternTable) }, none) ∧
    ((∃ er, (parse_path extBase cfgStrict true [] rawJunk).1 = .error er) ↔
      ((cfgStrict.strict = true ∧
          0 < statsStrictSum (bumpGlog { internTable := ([] : InternTable) }).stats) ∨
       (cfgStrict.strict_compile_id = true ∧
          dirHas (bumpGlog { internTable := ([] : InternTable) }).directory none = true))) :=
  ⟨by decide,
   C4_strict_conditions extBase cfgStrict [] rawJunk
     (bumpGlog { internTable := ([] : InternTable) }) (by decide)⟩

/-! Claim C2: the CSS class of stack-trie terminals. -/

theorem data_append (a b : String) : (a ++ b).data = a.data ++ b.data := rfl

theorem infixExtR {a x : List Char} (y : List Char) (h : List.IsInfix a x) :
    List.IsInfix a (x ++ y) := by
  obtain ⟨s, t, rfl⟩ := h
  exact ⟨s, t ++ y, by simp⟩

theorem infixExtL {a y : List Char} (x : List Char) (h : List.IsInfix a y) :
    List.IsInfix a (x ++ y) := by
  obtain ⟨s, t, rfl⟩ := h
  exact ⟨x ++ s, t, by simp⟩

theorem infixStrExtR {a x : String} (y : String) (h : List.IsInfix a.data x.data) :
    List.IsInfix a.data (x ++ y).data := by
  rw [data_append]
  exact infixExtR y.data h

theorem infixStrExtL {a y : String} (x : String) (h : List.IsInfix a.data y.data) :
    List.IsInfix a.data (x ++ y).data := by
  rw [data_append]
  exact infixExtL x.data h

theorem foldl_append_concatAll (f : Option CompileId → String)
    (ts : List (Option CompileId)) :
    ∀ acc, ts.foldl (fun acc t => acc ++ f t) acc = acc ++ concatAll (ts.map f) := by
  induction ts with
  | nil => intro acc; simp [concatAll, String.append_empty]
  | cons x xs ih =>
    intro acc
    simp only [List.foldl_cons, List.map_cons, concatAll, ih, String.append_assoc]

theorem mem_concatAll_infix (f : Option CompileId → String) (x : Option CompileId)
    (l : List (Option CompileId)) (h : x ∈ l) :
    List.IsInfix (f x).data (concatAll (l.map f)).data := by
  induction l with
  | nil => cases h
  | cons a as ih =>
    simp only [List.map_cons, concatAll]
    rcases List.mem_cons.mp h with rfl | hmem
    · rw [data_append]
      exact ⟨[], (concatAll (as.map f)).data, by simp⟩
    · exact infixStrExtL (f a) (ih hmem)

theorem anchor_mid_star (mbIdx : Option CompilationMetricsIndex)
    (tv : Option CompileId) (ts : List (Option CompileId)) (h : tv ∈ ts) :
    List.IsInfix (terminalAnchor mbIdx tv).data (starOf mbIdx ts).data := by
  unfold starOf
  rw [foldl_append_concatAll]
  have he : ("" ++ concatAll (ts.map (terminalAnchor mbIdx))) =
      concatAll (ts.map (terminalAnchor mbIdx)) := rfl
  rw [he]
  exact mem_concatAll_infix (terminalAnchor mbIdx) tv ts h

-- Every terminal below the root is rendered by fmt_inner as its anchor
-- string (carrying okClassOf as the CSS class); proved by mutual structural
-- induction over the trie and its child list.
mutual
theorem trie_anchor_mid (tbl : InternTable) (mbIdx : Option CompilationMetricsIndex) :
    ∀ (t : StackTrieNode) (tv : Option CompileId), tv ∈ t.terminalsBelow →
      List.IsInfix (terminalAnchor mbIdx tv).data (t.fmtInner tbl mbIdx).data
  | .mk term ch, tv, h => by
    unfold StackTrieNode.fmtInner
    exact child_anchor_mid tbl mbIdx ch (ch.length > 1) tv h

theorem child_anchor_mid (tbl : InternTable) (mbIdx : Option CompilationMetricsIndex) :
    ∀ (cl : ChildList) (multi : Bool) (tv : Option CompileId), tv ∈ cl.terminalsOf →
      List.IsInfix (terminalAnchor mbIdx tv).data
        (ChildList.fmtChildren tbl mbIdx multi cl).data
  | .cons fr node rest, multi, tv, h => by
    unfold ChildList.fmtChildren
    dsimp only []
    have hsplit := h
    unfold ChildList.terminalsOf at hsplit
    rcases List.mem_append.mp hsplit with h1 | h3
    · rcases List.mem_append.mp h1 with hterm | hbelow
      · have hs := anchor_mid_star mbIdx tv node.terminal hterm
        cases multi with
        | true =>
          apply infixStrExtR
          apply infixStrExtR
          apply infixStrExtR
          apply infixStrExtR
          apply infixStrExtR
          apply infixStrExtR
          apply infixStrExtL
          exact hs
        | false =>
          apply infixStrExtR
          apply infixStrExtR
          apply infixStrExtR
          apply infixStrExtR
          apply infixStrExtL
          exact hs
      · have hi := trie_anchor_mid tbl mbIdx node tv hbelow
        cases multi with
        | true =>
          apply infixStrExtR
          apply infixStrExtR
          apply infixStrExtL
          exact hi
        | false =>
          apply infixStrExtR
          apply infixStrExtL
          exact hi
    · exact infixStrExtL _ (child_anchor_mid tbl mbIdx rest multi tv h3)
end

/-- Modelled from the claim's words: the class obtained by looking the
    terminal's compile id up with attempt forced to 0 and applying the
    precedence as the claim states it (fail_type, then graph_op_count equal
    to 0, then a non-empty restart_reasons list).  This is the comparison
    definition for refuting C2; the code's computation is okClassOf. -/
def specC2Class (idx : CompilationMetricsIndex) (c : CompileId) : String :=
  match cmIndexLookup idx (some { c with attempt := 0 }) with
  | none => "status-missing"
  | some m =>
    if m.any (fun n => n.fail_type.isSome) then "status-error"
    else if m.any (fun n => n.graph_op_count = some 0) then "status-empty"
    else if m.any (fun n =>
        match n.restart_reasons with
        | some rs => !rs.isEmpty
        | none => false) then "status-break"
    else "status-ok"

def idxC2A : CompilationMetricsIndex :=
  [(some ⟨0, 0, 0⟩, [{ fail_type := some "F", fail_reason := some "r" }])]

def trieC2A : StackTrieNode := emptyTrie.insert [frC3] (some ⟨0, 0, 1⟩)

def idxC2B : CompilationMetricsIndex := [(some ⟨0, 0, 0⟩, [{ graph_op_count := some 1 }])]

def idxC2C : CompilationMetricsIndex :=
  [(some ⟨0, 0, 0⟩, [{ restart_reasons := some ["r"] }])]

/-- C2 counterexample, three divergences at concrete inputs: (i) the
    rendered class is looked up under the terminal's stored key, not the
    zero-attempt key — a terminal with attempt 1 whose metrics live under
    attempt 0 renders status-missing where the claim computes status-error;
    (ii) a record with restart_reasons absent makes the code render
    status-break where the claim's precedence gives status-ok; (iii) a
    record with graph_op_count absent counts as 0 in the code
    (status-empty) where the claim's precedence gives status-break. -/
theorem C2_counterexample :
    (specC2Class idxC2A ⟨0, 0, 1⟩ = "status-error" ∧
      okClassOf (some idxC2A) (some ⟨0, 0, 1⟩) = "status-missing" ∧
      listContainsSub "status-error".data (StackTrieNode.fmt [] trieC2A (some idxC2A)).data
        = false ∧
      listContainsSub "status-missing".data (StackTrieNode.fmt [] trieC2A (some idxC2A)).data
        = true) ∧
    (okClassOf (some idxC2B) (some ⟨0, 0, 0⟩) = "status-break" ∧
      specC2Class idxC2B ⟨0, 0, 0⟩ = "status-ok") ∧
    (okClassOf (some idxC2C) (some ⟨0, 0, 0⟩) = "status-empty" ∧
      specC2Class idxC2C ⟨0, 0, 0⟩ = "status-break") := by
  decide

/-- C2 (amended): every terminal of the stack trie holding compile id c is
    rendered as an anchor whose CSS class is okClassOf applied to the
    terminal's compile id exactly as stored (the attempt is not forced to
    zero at lookup; only the metrics-index keys were zeroed at insertion),
    with the precedence of the source: missing entry, any fail_type, any
    graph_op_count equal to 0 or absent, any restart_reasons absent or
    non-empty, otherwise ok. -/
theorem C2_terminal_css_class (tbl : InternTable) (mbIdx : Option CompilationMetricsIndex)
    (t : StackTrieNode) (c : CompileId) (h : some c ∈ t.terminalsBelow) :
    List.IsInfix
      ("<a href=\x27#" ++ c.render ++ "\x27 class=\x27" ++ okClassOf mbIdx (some c) ++
        "\x27>" ++ c.render ++ "</a> ").data
      (StackTrieNode.fmt tbl t mbIdx).data := by
  unfold StackTrieNode.fmt
  apply infixStrExtR
  apply infixStrExtR
  apply infixStrExtL
  have ht := trie_anchor_mid tbl mbIdx t (some c) h
  have he : terminalAnchor mbIdx (some c) =
      "<a href=\x27#" ++ c.render ++ "\x27 class=\x27" ++ okClassOf mbIdx (some c) ++
        "\x27>" ++ c.render ++ "</a> " := by
    unfold terminalAnchor
    simp [String.append_assoc]
  rw [he] at ht
  exact ht

/-- Witness for C2_terminal_css_class on a concrete one-terminal trie. -/
theorem C2_witness :
    some (⟨0, 0, 1⟩ : CompileId) ∈ trieC2A.terminalsBelow ∧
    List.IsInfix
      ("<a href=\x27#" ++ CompileId.render ⟨0, 0, 1⟩ ++ "\x27 class=\x27" ++
        okClassOf (some idxC2A) (some ⟨0, 0, 1⟩) ++ "\x27>" ++
        CompileId.render ⟨0, 0, 1⟩ ++ "</a> ").data
      (StackTrieNode.fmt [] trieC2A (some idxC2A)).data :=
  ⟨by decide, C2_terminal_css_class [] (some idxC2A) trieC2A ⟨0, 0, 1⟩ (by decide)⟩

/-! Claim C10: determinism of parse_path.  The convert-frame trimming
    consults the process-wide intern table at ingest time, so the table
    state left behind by one call changes what the next call produces: a
    file that interns the convert_frame.py filename after using it in a
    dynamo_start stack is trimmed differently on the second run. -/

def frCF (i : Int) (nm : String) : FrameSummary := { filename := 7, line := i, name := nm }

def envDynC10 : Envelope :=
  { compile_id := some ⟨0, 0, 0⟩,
    dynamo_start := some (some
      [frCF 1 "catch_errors", frCF 2 "_convert_frame", frCF 3 "_convert_frame_assert"]) }

def envStrC10 : Envelope := { str := some ("torch/_dynamo/convert_frame.py", 7) }

def jsonDynC10 : String :=
  "\x7b\"frame_id\": 0, \"frame_compile_id\": 0, \"attempt\": 0, " ++
    "\"dynamo_start\": \x7b\"stack\": [" ++
    "\x7b\"filename\": 7, \"line\": 1, \"name\": \"catch_errors\"\x7d, " ++
    "\x7b\"filename\": 7, \"line\": 2, \"name\": \"_convert_frame\"\x7d, " ++
    "\x7b\"filename\": 7, \"line\": 3, \"name\": \"_convert_frame_assert\"\x7d]\x7d\x7d"

def jsonStrC10 : String := "\x7b\"str\": [\"torch/_dynamo/convert_frame.py\", 7]\x7d"

def extC10 : Ext :=
  { extBase with
    decodeEnvelope := fun p =>
      if p = jsonDynC10 then some envDynC10
      else if p = jsonStrC10 then some envStrC10
      else none }

def rawC10 : String :=
  demoGlogPrefix ++ jsonDynC10 ++ "\n" ++ demoGlogPrefix ++ jsonStrC10 ++ "\n"

set_option maxRecDepth 8000 in
set_option maxHeartbeats 4000000 in
/-- C10 counterexample: two calls of parse_path on the same file with the
    same configuration return different outputs, because the first call
    leaves the interned convert_frame.py filename in the process-wide table
    and the second call therefore trims the dynamo_start stack (the index
    page's stack trie differs).  The first conjunct shows the first call's
    table mutation. -/
theorem C10_counterexample :
    (parse_path extC10 {} true [] rawC10).2 = [(7, "torch/_dynamo/convert_frame.py")] ∧
    (parse_path extC10 {} true [] rawC10).1 ≠
      (parse_path extC10 {} true (parse_path extC10 {} true [] rawC10).2 rawC10).1 := by
  decide

/-- C10 (amended): parse_path is a deterministic function of the input
    file, the configuration, and the intern-table state at entry: two calls
    with identical table states return identical outputs and final tables.
    Byte-identical outputs across two successive calls are not guaranteed,
    because the table is process-wide mutable state that the first call may
    change (see the counterexample). -/
theorem C10_determinism (ext : Ext) (cfg : ParseConfig) (isFile : Bool) (raw : String)
    (t1 t2 : InternTable) (h : t1 = t2) :
    parse_path ext cfg isFile t1 raw = parse_path ext cfg isFile t2 raw := by
  rw [h]

/-- Witness for C10_determinism at the empty table. -/
theorem C10_witness :
    ([] : InternTable) = ([] : InternTable) ∧
    parse_path extBase {} true [] "" = parse_path extBase {} true [] "" :=
  ⟨rfl, C10_determinism extBase {} true "" [] [] rfl⟩

/-! # Claim C7: output path uniqueness

    Machinery: a structural (fuel-free) model of splitting on the slash
    character, bridged to splitStr; arithmetic facts about the decimal
    renderer; a tag extractor reading back the sequence number that
    run_parser appends to File output stems; and an invariant carried
    through the ingestion loop.  -/

theorem ofCh_data (l : List Char) : (ofCh l).data = l := rfl

/-- Structural split of a character list on the slash character; agrees with
    splitStr on the "/" separator (bridge lemma below) and supports plain
    structural induction. -/
def splitSlash : List Char → List (List Char)
  | [] => [[]]
  | c :: r =>
    if c = '/' then [] :: splitSlash r
    else
      match splitSlash r with
      | h :: t => (c :: h) :: t
      | [] => [[c]]

theorem splitSlash_ne_nil (l : List Char) : splitSlash l ≠ [] := by
  induction l with
  | nil => simp [splitSlash]
  | cons c r ih =>
    by_cases hc : c = '/'
    · simp [splitSlash, hc]
    · simp only [splitSlash, if_neg hc]
      cases hr : splitSlash r with
      | nil => simp
      | cons h t => simp

theorem splitSlash_no_slash (l : List Char) (h : '/' ∉ l) : splitSlash l = [l] := by
  induction l with
  | nil => rfl
  | cons c r ih =>
    have hc : c ≠ '/' := fun he => h (he ▸ List.mem_cons_self c r)
    have hr : '/' ∉ r := fun hm => h (List.mem_cons_of_mem c hm)
    simp only [splitSlash, if_neg hc, ih hr]

theorem splitSlash_append (a b : List Char) (ha : '/' ∉ a) :
    splitSlash (a ++ '/' :: b) = a :: splitSlash b := by
  induction a with
  | nil => simp [splitSlash]
  | cons c r ih =>
    have hc : c ≠ '/' := fun he => ha (he ▸ List.mem_cons_self c r)
    have hr : '/' ∉ r := fun hm => ha (List.mem_cons_of_mem c hm)
    simp only [List.cons_append, List.append_eq, splitSlash, if_neg hc, ih hr]

/-- splitFirstSub with a slash separator returns none exactly on slash-free
    lists. -/
theorem splitFirstSub_none (l : List Char) (h : '/' ∉ l) :
    splitFirstSub ['/'] l = none := by
  induction l with
  | nil => rfl
  | cons c r ih =>
    have hc : c ≠ '/' := fun he => h (he ▸ List.mem_cons_self c r)
    have hr : '/' ∉ r := fun hm => h (List.mem_cons_of_mem c hm)
    have hpre : ['/'].isPrefixOf (c :: r) = false := by
      simp [List.isPrefixOf, BEq.beq]
      intro he
      exact absurd he.symm hc
    simp only [splitFirstSub, hpre, Bool.false_eq_true, if_false, ih hr]

theorem splitFirstSub_found (a b : List Char) (ha : '/' ∉ a) :
    splitFirstSub ['/'] (a ++ '/' :: b) = some (a, b) := by
  induction a with
  | nil =>
    have hpre : ['/'].isPrefixOf ('/' :: b) = true := by
      simp [List.isPrefixOf]
    simp [splitFirstSub, hpre]
  | cons c r ih =>
    have hc : c ≠ '/' := fun he => ha (he ▸ List.mem_cons_self c r)
    have hr : '/' ∉ r := fun hm => ha (List.mem_cons_of_mem c hm)
    have hpre : ['/'].isPrefixOf (c :: (r ++ '/' :: b)) = false := by
      simp [List.isPrefixOf, BEq.beq]
      intro he
      exact absurd he.symm hc
    simp only [List.cons_append, List.append_eq, splitFirstSub, hpre, Bool.false_eq_true, if_false, ih hr]

/-- A found split really is a decomposition at the first slash. -/
theorem splitFirstSub_inv (l a b : List Char)
    (h : splitFirstSub ['/'] l = some (a, b)) :
    l = a ++ '/' :: b ∧ '/' ∉ a := by
  induction l generalizing a b with
  | nil => simp [splitFirstSub] at h
  | cons c r ih =>
    by_cases hc : c = '/'
    · subst hc
      have hpre : ['/'].isPrefixOf ('/' :: r) = true := by simp [List.isPrefixOf]
      simp only [splitFirstSub, hpre, if_true, List.drop_succ_cons, List.drop_zero] at h
      injection h with h2
      have ha : a = [] := (Prod.mk.injEq _ _ _ _ ▸ h2).1.symm
      have hb : b = r := (Prod.mk.injEq _ _ _ _ ▸ h2).2.symm
      subst ha; subst hb
      exact ⟨rfl, by simp⟩
    · have hpre : ['/'].isPrefixOf (c :: r) = false := by
        simp [List.isPrefixOf, BEq.beq]
        intro he
        exact absurd he.symm hc
      simp only [splitFirstSub, hpre, Bool.false_eq_true, if_false] at h
      cases hr : splitFirstSub ['/'] r with
      | none => rw [hr] at h; exact absurd h (by simp)
      | some p =>
        rw [hr] at h
        cases p with
        | mk a0 b0 =>
          simp only [Option.some.injEq, Prod.mk.injEq] at h
          obtain ⟨ha, hb⟩ := h
          obtain ⟨hdec, hnot⟩ := ih a0 b0 hr
          subst hb
          rw [← ha, hdec]
          constructor
          · simp
          · intro hm
            rcases List.mem_cons.mp hm with h1 | h1
            · exact hc h1.symm
            · exact hnot h1

/-- A none answer means no slash at all. -/
theorem splitFirstSub_none_inv (l : List Char)
    (h : splitFirstSub ['/'] l = none) : '/' ∉ l := by
  induction l with
  | nil => simp
  | cons c r ih =>
    by_cases hc : c = '/'
    · subst hc
      have hpre : ['/'].isPrefixOf ('/' :: r) = true := by simp [List.isPrefixOf]
      simp [splitFirstSub, hpre] at h
    · have hpre : ['/'].isPrefixOf (c :: r) = false := by
        simp [List.isPrefixOf, BEq.beq]
        intro he
        exact absurd he.symm hc
      simp only [splitFirstSub, hpre, Bool.false_eq_true, if_false] at h
      cases hr : splitFirstSub ['/'] r with
      | none =>
        intro hm
        rcases List.mem_cons.mp hm with h1 | h1
        · exact hc h1.symm
        · exact ih hr h1
      | some p => rw [hr] at h; cases p; exact absurd h (by simp)

/-- With enough fuel, the fuelled splitter agrees with the structural one. -/
theorem splitOnAux_eq_splitSlash :
    ∀ fuel l, l.length < fuel → splitOnAux ['/'] fuel l = splitSlash l := by
  intro fuel
  induction fuel with
  | zero => intro l h; exact absurd h (Nat.not_lt_zero _)
  | succ f ih =>
    intro l hl
    cases hs : splitFirstSub ['/'] l with
    | none =>
      simp only [splitOnAux, hs, splitSlash_no_slash l (splitFirstSub_none_inv l hs)]
    | some p =>
      cases p with
      | mk a b =>
        obtain ⟨hdec, hnot⟩ := splitFirstSub_inv l a b hs
        subst hdec
        have hb : b.length < f := by
          have := List.length_append a ('/' :: b)
          simp at hl ⊢
          omega
        simp only [splitOnAux, hs, splitSlash_append a b hnot, ih b hb]

/-- splitStr on "/" computes splitSlash. -/
theorem splitStr_slash (s : String) :
    splitStr s "/" = (splitSlash s.data).map ofCh := by
  have h : ("/" : String).data = ['/'] := rfl
  simp only [splitStr, h, splitOnAux_eq_splitSlash (s.data.length + 1) s.data (Nat.lt_succ_self _)]

/-- The final split piece is the slash-free tail. -/
theorem splitSlash_last_piece (a b : List Char) (hb : '/' ∉ b) :
    ∃ L, splitSlash (a ++ '/' :: b) = L ++ [b] ∧ L ≠ [] := by
  induction a with
  | nil =>
    refine ⟨[[]], ?_, by simp⟩
    simp [splitSlash, splitSlash_no_slash b hb]
  | cons c r ih =>
    obtain ⟨L, hL, hne⟩ := ih
    by_cases hc : c = '/'
    · subst hc
      refine ⟨[] :: L, ?_, by simp⟩
      simp [splitSlash, hL]
    · obtain ⟨h0, t0, ht⟩ := List.exists_cons_of_ne_nil hne
      refine ⟨(c :: h0) :: t0, ?_, by simp⟩
      simp only [List.cons_append, List.append_eq, splitSlash, if_neg hc, hL, ht,
        List.cons_append]

/-- A list containing a slash decomposes at its last slash. -/
theorem exists_last_slash (l : List Char) (h : '/' ∈ l) :
    ∃ a b, l = a ++ '/' :: b ∧ '/' ∉ b := by
  induction l with
  | nil => simp at h
  | cons c r ih =>
    by_cases hr : '/' ∈ r
    · obtain ⟨a, b, hdec, hb⟩ := ih hr
      exact ⟨c :: a, b, by rw [hdec]; rfl, hb⟩
    · have hc : c = '/' := by
        rcases List.mem_cons.mp h with h1 | h1
        · exact h1.symm
        · exact absurd h1 hr
      exact ⟨[], r, by rw [hc]; simp, hr⟩

/-- Head structure of the splitter on a non-slash head character. -/
theorem splitSlash_cons_head (c : Char) (s : List Char) (hc : c ≠ '/') :
    ∃ h t, splitSlash (c :: s) = (c :: h) :: t := by
  simp only [splitSlash, if_neg hc]
  cases hs : splitSlash s with
  | nil => exact ⟨[], [], rfl⟩
  | cons h0 t0 => exact ⟨h0, t0, rfl⟩

/-! Decimal rendering facts. -/

theorem decAux_all_digits : ∀ fuel n, (decAux fuel n).all isDigitCh = true := by
  intro fuel
  induction fuel with
  | zero => intro n; rfl
  | succ f ih =>
    intro n
    by_cases h : n < 10
    · have hd : isDigitCh (Char.ofNat (48 + n)) = true := by
        interval_cases n <;> decide
      simp [decAux, if_pos h, hd]
    · have hm : n % 10 < 10 := Nat.mod_lt _ (by omega)
      have hd : isDigitCh (Char.ofNat (48 + n % 10)) = true := by
        set m := n % 10 with hmm
        interval_cases m <;> decide
      simp [decAux, if_neg h, List.all_append, ih, hd]

theorem decAux_ne_nil (f n : Nat) : decAux (f + 1) n ≠ [] := by
  by_cases h : n < 10
  · simp [decAux, if_pos h]
  · simp [decAux, if_neg h]

theorem digitsToNat_append_digit (l : List Char) (c : Char) :
    digitsToNat (l ++ [c]) = 10 * digitsToNat l + digitVal c := by
  simp [digitsToNat, List.foldl_append]

theorem decAux_val : ∀ fuel n, n < fuel → digitsToNat (decAux fuel n) = n := by
  intro fuel
  induction fuel with
  | zero => intro n h; exact absurd h (Nat.not_lt_zero _)
  | succ f ih =>
    intro n hn
    by_cases h : n < 10
    · have : digitVal (Char.ofNat (48 + n)) = n := by
        interval_cases n <;> decide
      simp [decAux, if_pos h, digitsToNat, this]
    · have hm : n % 10 < 10 := Nat.mod_lt _ (by omega)
      have hq : n / 10 < f := by omega
      have hd : digitVal (Char.ofNat (48 + n % 10)) = n % 10 := by
        set m := n % 10 with hmm
        interval_cases m <;> decide
      rw [decAux, if_neg h, digitsToNat_append_digit, ih _ hq, hd]
      omega

theorem decStr_val (n : Nat) : digitsToNat (decStr n).data = n :=
  decAux_val (n + 1) n (Nat.lt_succ_self n)

theorem decStr_all_digits (n : Nat) : (decStr n).data.all isDigitCh = true :=
  decAux_all_digits (n + 1) n

theorem decStr_ne_nil (n : Nat) : (decStr n).data ≠ [] := decAux_ne_nil n n

/-- Every character of a rendered decimal is a digit. -/
theorem decStr_mem_digit (n : Nat) (c : Char) (h : c ∈ (decStr n).data) :
    isDigitCh c = true :=
  (List.all_eq_true.mp (decStr_all_digits n)) c h

/-- Digit characters are distinct from the path-structure characters the
    analysis tracks. -/
theorem digit_ne (c : Char) (h : isDigitCh c = true) :
    c ≠ '/' ∧ c ≠ '.' ∧ c ≠ '_' ∧ c ≠ 'l' ∧ c ≠ 'd' := by
  refine ⟨?_, ?_, ?_, ?_, ?_⟩ <;>
    (intro he; subst he; exact absurd h (by decide))

/-! The path-shape abstraction for the uniqueness invariant: every File
    output is renamed with the current value of the global sequence counter
    inserted between the stem and the extension, and that number can be read
    back from the finished path; GlobalFile outputs of the dump-file analyzer
    are recognizable by their shape (the dump_file/ directory, or an absolute
    path ending in .html). -/

def notSep (c : Char) : Bool := decide (c ≠ '.') && decide (c ≠ '_')

def notUnd (c : Char) : Bool := decide (c ≠ '_')

/-- Read back the sequence number from a renamed File path: the maximal
    run of digits standing immediately before the last dot (or at the very
    end for an extensionless name) and immediately after an underscore. -/
def tagOfL (l : List Char) : Option Nat :=
  let r := l.reverse
  let segA := r.takeWhile notSep
  match r.drop segA.length with
  | [] => none
  | c :: rest =>
    if c = '.' then
      let ds := rest.takeWhile notUnd
      if ds = [] then none
      else if ds.all isDigitCh then
        match rest.drop ds.length with
        | [] => none
        | c2 :: _ => if c2 = '_' then some (digitsToNat ds.reverse) else none
      else none
    else if c = '_' then
      if segA = [] then none
      else if segA.all isDigitCh then some (digitsToNat segA.reverse) else none
    else none

def tagOf (s : String) : Option Nat := tagOfL s.data

/-- The shape of dump-file analyzer output paths. -/
def isDumpStyle (p : String) : Bool :=
  strStarts p "dump_file/" || (strStarts p "/" && strEnds p ".html")

theorem takeWhile_append_all (p : Char → Bool) (l1 l2 : List Char)
    (h : l1.all p = true) :
    (l1 ++ l2).takeWhile p = l1 ++ l2.takeWhile p := by
  induction l1 with
  | nil => simp
  | cons c r ih =>
    simp only [List.all_cons, Bool.and_eq_true] at h
    simp [List.takeWhile_cons, h.1, ih h.2]

/-- The span of an all-passing block followed by a failing character. -/
theorem takeWhile_span (p : Char → Bool) (l1 : List Char) (c : Char)
    (l2 : List Char) (h1 : l1.all p = true) (hc : p c = false) :
    (l1 ++ c :: l2).takeWhile p = l1 := by
  rw [takeWhile_append_all p l1 _ h1, List.takeWhile_cons, hc]
  simp

theorem digit_notSep (c : Char) (h : isDigitCh c = true) : notSep c = true := by
  obtain ⟨_, h2, h3, _, _⟩ := digit_ne c h
  simp [notSep, h2, h3]

theorem digit_notUnd (c : Char) (h : isDigitCh c = true) : notUnd c = true := by
  obtain ⟨_, _, h3, _, _⟩ := digit_ne c h
  simp [notUnd, h3]

theorem all_of_all_digit (p : Char → Bool) (l : List Char)
    (hp : ∀ c, isDigitCh c = true → p c = true)
    (h : l.all isDigitCh = true) : l.all p = true := by
  rw [List.all_eq_true] at h ⊢
  exact fun c hc => hp c (h c hc)

/-- Reading the tag of a renamed path with an extension. -/
theorem tagOfL_ext (x dec ext : List Char) (hdne : dec ≠ [])
    (hdall : dec.all isDigitCh = true)
    (heall : ext.all notSep = true) :
    tagOfL (x ++ '_' :: (dec ++ '.' :: ext)) = some (digitsToNat dec) := by
  have hrev : (x ++ '_' :: (dec ++ '.' :: ext)).reverse =
      ext.reverse ++ '.' :: (dec.reverse ++ '_' :: x.reverse) := by
    simp
  have hsegA := takeWhile_span notSep ext.reverse '.' (dec.reverse ++ '_' :: x.reverse)
    (by rw [List.all_reverse]; exact heall) (by decide)
  have hds := takeWhile_span notUnd dec.reverse '_' x.reverse
    (by rw [List.all_reverse]; exact all_of_all_digit notUnd dec digit_notUnd hdall)
    (by decide)
  have hdne2 : ¬dec.reverse = [] := by simpa using hdne
  unfold tagOfL
  simp only [hrev, hsegA, List.drop_left]
  simp [hds, List.drop_left, hdne2, hdall, List.all_reverse]

/-- Reading the tag of a renamed path without an extension. -/
theorem tagOfL_und (x dec : List Char) (hdne : dec ≠ [])
    (hdall : dec.all isDigitCh = true) :
    tagOfL (x ++ '_' :: dec) = some (digitsToNat dec) := by
  have hrev : (x ++ '_' :: dec).reverse = dec.reverse ++ '_' :: x.reverse := by
    simp
  have hsegA := takeWhile_span notSep dec.reverse '_' x.reverse
    (by rw [List.all_reverse]; exact all_of_all_digit notSep dec digit_notSep hdall)
    (by decide)
  have hdne2 : ¬dec.reverse = [] := by simpa using hdne
  unfold tagOfL
  simp only [hrev, hsegA, List.drop_left]
  simp [hdne2, hdall, List.all_reverse]

/-! String-level helpers. -/

theorem strStarts_false_of_head (s t : String) (c d : Char)
    (hs : s.data.head? = some c) (ht : t.data.head? = some d) (hne : d ≠ c) :
    strStarts s t = false := by
  obtain ⟨s1, hs1⟩ : ∃ s1, s.data = c :: s1 := by
    cases hsd : s.data with
    | nil => rw [hsd] at hs; simp at hs
    | cons a u => rw [hsd] at hs; injection hs with h2; exact ⟨u, by rw [h2]⟩
  obtain ⟨t1, ht1⟩ : ∃ t1, t.data = d :: t1 := by
    cases htd : t.data with
    | nil => rw [htd] at ht; simp at ht
    | cons a u => rw [htd] at ht; injection ht with h2; exact ⟨u, by rw [h2]⟩
  rw [strStarts, hs1, ht1]
  cases hb : (d :: t1).isPrefixOf (c :: s1) with
  | false => rfl
  | true =>
    exact absurd (List.cons_prefix_cons.mp ( List.isPrefixOf_iff_prefix.mp hb)).1 hne

theorem strEnds_of_suffix (s t : String) (h : t.data <:+ s.data) :
    strEnds s t = true := List.isSuffixOf_iff_suffix.mpr h

theorem suffix_of_strEnds (s t : String) (h : strEnds s t = true) :
    t.data <:+ s.data := List.isSuffixOf_iff_suffix.mp h

theorem strEnds_self_append (x t : String) : strEnds (x ++ t) t = true := by
  apply strEnds_of_suffix
  rw [String.data_append]
  exact List.suffix_append _ _

theorem getLast_of_strEnds (p t : String) (h : strEnds p t = true)
    (hne : t.data ≠ []) : p.data.getLast? = t.data.getLast? := by
  obtain ⟨u, hu⟩ := suffix_of_strEnds p t h
  rw [← hu]
  exact List.getLast?_append_of_ne_nil u hne

theorem not_ends_html (p : String) (ch : Char) (h : p.data.getLast? = some ch)
    (hne : ch ≠ 'l') : strEnds p ".html" = false := by
  cases hb : strEnds p ".html" with
  | false => rfl
  | true =>
    have h2 := getLast_of_strEnds p ".html" hb (by decide)
    rw [h] at h2
    have h3 : (".html" : String).data.getLast? = some 'l' := by decide
    rw [h3] at h2
    exact absurd (Option.some.inj h2) hne

theorem exists_getLast (l : List Char) (h : l ≠ []) :
    ∃ a, l.getLast? = some a ∧ a ∈ l := by
  have h1 := List.getLast?_eq_getLast l h
  exact ⟨l.getLast h, h1, List.getLast_mem h⟩

/-- A suffix without slash of a list whose tail after the last slash is b
    is a suffix of b. -/
theorem suffix_in_tail (t a b : List Char) (hs : t <:+ a ++ '/' :: b)
    (ht : '/' ∉ t) : t <:+ b := by
  by_cases hlen : t.length ≤ b.length
  · have hbs : b <:+ a ++ '/' :: b := ⟨a ++ ['/'], by simp⟩
    have h1 : t.reverse <+: (a ++ '/' :: b).reverse := List.reverse_prefix.mpr hs
    have h2 : b.reverse <+: (a ++ '/' :: b).reverse := List.reverse_prefix.mpr hbs
    have h3 := List.prefix_of_prefix_length_le h1 h2 (by simpa using hlen)
    exact List.reverse_prefix.mp h3
  · exfalso
    obtain ⟨u, hu⟩ := hs
    have hlu : u.length ≤ a.length := by
      have := congrArg List.length hu
      simp at this
      omega
    have h3 : (u ++ t).drop u.length = t := List.drop_left u t
    rw [hu, List.drop_append_of_le_length hlu] at h3
    rw [← h3] at ht
    exact ht (by simp)

/-! joinSlash algebra. -/

def restStr : List String → String
  | [] => ""
  | a :: as => "/" ++ a ++ restStr as

theorem joinSlash_cons (a : String) (l : List String) :
    joinSlash (a :: l) = a ++ restStr l := by
  have go_spec : ∀ (l2 : List String) (acc : String),
      String.intercalate.go acc "/" l2 = acc ++ restStr l2 := by
    intro l2
    induction l2 with
    | nil =>
      intro acc
      rw [show String.intercalate.go acc "/" [] = acc from rfl, restStr,
        String.append_empty]
    | cons b bs ih =>
      intro acc
      rw [show String.intercalate.go acc "/" (b :: bs) =
        String.intercalate.go (acc ++ "/" ++ b) "/" bs from rfl, ih]
      simp [restStr, String.append_assoc]
  rw [joinSlash, show String.intercalate "/" (a :: l) =
    String.intercalate.go a "/" l from rfl, go_spec]

theorem restStr_concat (l : List String) (nn : String) :
    restStr (l ++ [nn]) = restStr l ++ ("/" ++ nn) := by
  induction l with
  | nil => simp [restStr, String.append_empty, String.empty_append]
  | cons a as ih => simp [restStr, ih, String.append_assoc]

theorem joinSlash_concat (a : String) (l : List String) (nn : String) :
    joinSlash ((a :: l) ++ [nn]) = (a ++ restStr l ++ "/") ++ nn := by
  rw [List.cons_append, joinSlash_cons, restStr_concat]
  simp [String.append_assoc]

/-- dropTrailing does nothing when the last component is a real name. -/
theorem dropTrailing_noop :
    ∀ (l : List String) (x : String), l.getLast? = some x →
      x ≠ "" → x ≠ "." → withFileName.dropTrailing l = l := by
  intro l
  induction l with
  | nil => intro x h; simp at h
  | cons y t ih =>
    intro x h h1 h2
    cases t with
    | nil =>
      have hxy : y = x := by simpa using h
      rw [show withFileName.dropTrailing [y] =
        (if y = "" || y = "." then [] else [y]) from rfl]
      rw [if_neg (by simp [hxy, h1, h2])]
    | cons z t2 =>
      rw [List.getLast?_cons_cons] at h
      have ih2 := ih x h h1 h2
      rw [show withFileName.dropTrailing (y :: z :: t2) =
        (match withFileName.dropTrailing (z :: t2) with
         | [] => if y = "" || y = "." then [] else [y]
         | ys => y :: ys) from rfl, ih2]

/-- withFileName on a path with a real final component: the new name is
    glued after the retained directory prefix, which keeps the original
    head character and ends with a slash. -/
theorem withFileName_tail (raw : String) (a b : List Char) (nn : String)
    (hdec : raw.data = a ++ '/' :: b) (hb : '/' ∉ b)
    (hb1 : b ≠ []) (hb2 : b ≠ ['.']) :
    ∃ x : String, withFileName raw nn = x ++ nn ∧
      x.data.head? = raw.data.head? ∧ ∃ x0, x.data = x0 ++ ['/'] := by
  obtain ⟨L, hL, hLne⟩ := splitSlash_last_piece a b hb
  obtain ⟨p0, L2, hLc⟩ := List.exists_cons_of_ne_nil hLne
  rw [hLc] at hL
  have hparts : splitStr raw "/" = ofCh p0 :: (L2.map ofCh ++ [ofCh b]) := by
    rw [splitStr_slash, hdec, hL]
    simp
  have hlast : (splitStr raw "/").getLast? = some (ofCh b) := by
    rw [hparts, show ofCh p0 :: (L2.map ofCh ++ [ofCh b]) =
      (ofCh p0 :: L2.map ofCh) ++ [ofCh b] from by simp]
    exact List.getLast?_concat _
  have hne1 : ofCh b ≠ "" := by
    intro he
    exact hb1 (congrArg String.data he)
  have hne2 : ofCh b ≠ "." := by
    intro he
    exact hb2 (congrArg String.data he)
  have hdrop := dropTrailing_noop (splitStr raw "/") (ofCh b) hlast hne1 hne2
  have hwfn : withFileName raw nn =
      (match withFileName.dropTrailing (splitStr raw "/") with
       | [] => nn
       | ps => joinSlash (ps.dropLast ++ [nn])) := rfl
  rw [hwfn, hdrop, hparts]
  have hform : (ofCh p0 :: (L2.map ofCh ++ [ofCh b])).dropLast =
      ofCh p0 :: L2.map ofCh := by
    rw [show ofCh p0 :: (L2.map ofCh ++ [ofCh b]) =
      (ofCh p0 :: L2.map ofCh) ++ [ofCh b] from by simp, List.dropLast_concat]
  have hred : (match ofCh p0 :: (L2.map ofCh ++ [ofCh b]) with
       | [] => nn
       | ps => joinSlash (ps.dropLast ++ [nn]))
      = joinSlash ((ofCh p0 :: (L2.map ofCh ++ [ofCh b])).dropLast ++ [nn]) := rfl
  rw [hred, hform, joinSlash_concat]
  refine ⟨ofCh p0 ++ restStr (L2.map ofCh) ++ "/", rfl, ?_, ?_⟩
  · rw [hdec]
    cases a with
    | nil =>
      have hsb : splitSlash (([] : List Char) ++ '/' :: b) = [[], b] := by
        simp [splitSlash, splitSlash_no_slash b hb]
      rw [hsb] at hL
      simp only [List.cons_append] at hL
      injection hL with h1 h2
      have hL2 : L2 = [] := by
        cases L2 with
        | nil => rfl
        | cons u us => simp at h2
      rw [← h1, hL2]
      simp [restStr, ofCh, String.data_append]
    | cons c a2 =>
      by_cases hc : c = '/'
      · subst hc
        have hsb : splitSlash (('/' :: a2) ++ '/' :: b) =
            [] :: splitSlash (a2 ++ '/' :: b) := by
          simp [splitSlash]
        rw [hsb] at hL
        simp only [List.cons_append] at hL
        injection hL with h1 h2
        rw [← h1]
        cases L2 with
        | nil => simp [restStr, ofCh, String.data_append]
        | cons w ws => simp [restStr, ofCh, String.data_append]
      · obtain ⟨h0, t0, hsb⟩ := splitSlash_cons_head c (a2 ++ '/' :: b) hc
        rw [show ((c :: a2) ++ '/' :: b) = c :: (a2 ++ '/' :: b) from rfl, hsb] at hL
        simp only [List.cons_append] at hL
        injection hL with h1 h2
        rw [← h1]
        simp [ofCh, String.data_append]
  · refine ⟨(ofCh p0 ++ restStr (L2.map ofCh)).data, ?_⟩
    simp [String.data_append, ofCh_data]

/-- Rust file_stem/extension on a name ending in a dot-suffix: the extension
    is the suffix unless the whole name is the suffix (leading dot). -/
theorem stemExtOfName_dotsuffix (m e : List Char) (he : '.' ∉ e) :
    stemExtOfName (m ++ '.' :: e) =
      (if m = [] then (m ++ '.' :: e, none) else (m, some e)) := by
  have hall : e.reverse.all (fun c => c ≠ '.') = true := by
    rw [List.all_reverse, List.all_eq_true]
    intro c hc
    simp
    intro hc2
    exact he (hc2 ▸ hc)
  have hrev : (m ++ '.' :: e).reverse = e.reverse ++ '.' :: m.reverse := by simp
  have hspan := takeWhile_span (fun c => c ≠ '.') e.reverse '.' m.reverse hall
    (by simp)
  unfold stemExtOfName
  dsimp only []
  rw [hrev, hspan]
  have hlen : ¬ e.reverse.length = (e.reverse ++ '.' :: m.reverse).length := by
    simp
  rw [if_neg hlen]
  have hdrop : (e.reverse ++ '.' :: m.reverse).drop (e.reverse.length + 1) =
      m.reverse := by
    rw [show e.reverse.length + 1 = (e.reverse ++ ['.']).length from by simp,
      show e.reverse ++ '.' :: m.reverse = (e.reverse ++ ['.']) ++ m.reverse from by simp,
      List.drop_left]
  rw [hdrop]
  by_cases hm : m = []
  · subst hm
    simp
  · rw [if_neg (by simpa using hm : ¬ m.reverse.isEmpty = true)]
    rw [if_neg hm]
    simp

/-- The last component of a filtered component list. -/
theorem filter_getLast (l : List String) (p : String → Bool) (x : String)
    (h : l.getLast? = some x) (hp : p x = true) :
    (l.filter p).getLast? = some x := by
  induction l with
  | nil => simp at h
  | cons a t ih =>
    cases t with
    | nil =>
      have hxa : a = x := by simpa using h
      subst hxa
      simp [List.filter_cons, hp]
    | cons z t2 =>
      rw [List.getLast?_cons_cons] at h
      have ih2 := ih h
      have hne : (z :: t2).filter p ≠ [] := by
        intro hemp
        rw [hemp] at ih2
        simp at ih2
      rw [List.filter_cons]
      by_cases hpa : p a = true
      · rw [if_pos hpa]
        obtain ⟨y, ys, hys⟩ := List.exists_cons_of_ne_nil hne
        rw [hys, List.getLast?_cons_cons, ← hys, ih2]
      · rw [if_neg hpa]
        exact ih2

/-- Path::file_name on a path whose tail after the last slash is a real
    component. -/
theorem fileNameOf_tail (raw : String) (a b : List Char)
    (hdec : raw.data = a ++ '/' :: b) (hb : '/' ∉ b)
    (hb1 : b ≠ []) (hb2 : b ≠ ['.']) (hb3 : b ≠ ['.', '.']) :
    fileNameOf raw = some (ofCh b) := by
  obtain ⟨L, hL, hLne⟩ := splitSlash_last_piece a b hb
  have hparts : splitStr raw "/" = L.map ofCh ++ [ofCh b] := by
    rw [splitStr_slash, hdec, hL]
    simp
  have hlast : (splitStr raw "/").getLast? = some (ofCh b) := by
    rw [hparts]
    exact List.getLast?_concat _
  have hp : (fun c => c ≠ "" && c ≠ ".") (ofCh b) = true := by
    have hne1 : ofCh b ≠ "" := fun he => hb1 (congrArg String.data he)
    have hne2 : ofCh b ≠ "." := fun he => hb2 (congrArg String.data he)
    simp [hne1, hne2]
  have hfl := filter_getLast (splitStr raw "/")
    (fun c => decide (c ≠ "") && decide (c ≠ ".")) (ofCh b) hlast hp
  unfold fileNameOf
  dsimp only []
  rw [hfl]
  dsimp only []
  rw [if_neg (show ¬ (ofCh b = "..") from fun he => hb3 (congrArg String.data he))]

theorem decInt_nonneg (n : Int) (h : 0 ≤ n) : decInt n = decStr n.toNat := by
  rw [decInt, if_neg (by omega)]

/-- The filename computed by the File arm of run_parser (lib.rs 106-117):
    the stem gets the current output counter appended, the extension is
    retained. -/
def renamedPath (raw : String) (n : Int) : String :=
  match fileStemOf raw with
  | some stem =>
    withFileName raw (stem ++ "_" ++ decInt n ++
      (match extensionOf raw with
       | some e => "." ++ e
       | none => ""))
  | none => raw

theorem pushFileOutput_eq (rs : RunState) (raw c : String) :
    pushFileOutput rs raw c = { rs with
      output := rs.output ++ [(renamedPath raw rs.outputCount, c)]
      bucket := rs.bucket ++
        [{ url := renamedPath raw rs.outputCount,
           name := renamedPath raw rs.outputCount,
           number := rs.outputCount,
           suffix := extract_suffix (renamedPath raw rs.outputCount) }]
      outputCount := rs.outputCount + 1 } := rfl

theorem head_append_left (l1 l2 : List Char) (h : l1 ≠ []) :
    (l1 ++ l2).head? = l1.head? := by
  cases l1 with
  | nil => exact absurd rfl h
  | cons c t => simp

/-- Core characterization of a renamed File path whose raw filename ends in
    a dot-suffix: the sequence number can be read back, the head character
    is the raw path's, and the last character is a digit or a suffix
    character. -/
theorem renamed_core (raw : String) (n : Int) (hn : 0 ≤ n)
    (e : List Char) (hdot : '.' ∉ e) (hene : e ≠ []) (heall : e.all notSep = true)
    (hslashfree : '/' ∉ '.' :: e)
    (hsuf : ('.' :: e) <:+ raw.data)
    (hslash : '/' ∈ raw.data) :
    tagOf (renamedPath raw n) = some n.toNat ∧
      (renamedPath raw n).data.head? = raw.data.head? ∧
      ∃ last, (renamedPath raw n).data.getLast? = some last ∧
        (isDigitCh last = true ∨ last ∈ e) := by
  obtain ⟨a, b, hdec, hb⟩ := exists_last_slash raw.data hslash
  have hsufb : ('.' :: e) <:+ b :=
    suffix_in_tail _ a b (hdec ▸ hsuf) hslashfree
  obtain ⟨m, hm⟩ := hsufb
  subst hm
  have hb1 : m ++ '.' :: e ≠ [] := by simp
  have hb2 : m ++ '.' :: e ≠ ['.'] := by
    intro hcontra
    have hlen := congrArg List.length hcontra
    simp at hlen
    have hep : 0 < e.length := List.length_pos.mpr hene
    omega
  have hb3 : m ++ '.' :: e ≠ ['.', '.'] := by
    intro hcontra
    have hlen := congrArg List.length hcontra
    simp at hlen
    have hep : 0 < e.length := List.length_pos.mpr hene
    have hm0 : m.length = 0 := by omega
    have hmnil : m = [] := List.length_eq_zero.mp hm0
    rw [hmnil] at hcontra
    simp at hcontra
    exact hdot (by rw [hcontra]; exact List.mem_singleton.mpr rfl)
  have hname : fileNameOf raw = some (ofCh (m ++ '.' :: e)) :=
    fileNameOf_tail raw a _ hdec hb hb1 hb2 hb3
  have hse := stemExtOfName_dotsuffix m e hdot
  by_cases hm0 : m = []
  · -- leading-dot name: no extension, the whole name is the stem
    subst hm0
    have hstem : fileStemOf raw = some (ofCh ([] ++ '.' :: e)) := by
      rw [fileStemOf, hname, Option.map_some']
      rw [show (ofCh ([] ++ '.' :: e)).data = [] ++ '.' :: e from rfl, hse]
      rw [if_pos rfl]
    have hext : extensionOf raw = none := by
      rw [extensionOf, hname, Option.some_bind]
      rw [show (ofCh ([] ++ '.' :: e)).data = [] ++ '.' :: e from rfl, hse]
      rw [if_pos rfl]
      rfl
    have hrp : renamedPath raw n =
        withFileName raw (ofCh ([] ++ '.' :: e) ++ "_" ++ decStr n.toNat) := by
      unfold renamedPath
      rw [hstem]
      dsimp only []
      rw [hext]
      dsimp only []
      rw [decInt_nonneg n hn, String.append_empty]
    obtain ⟨x, hx, hheadx, x0, hx0⟩ :=
      withFileName_tail raw a _ (ofCh ([] ++ '.' :: e) ++ "_" ++ decStr n.toNat)
        hdec hb hb1 hb2
    rw [hrp, hx]
    have hxne : x.data ≠ [] := by rw [hx0]; simp
    have hshape : (x ++ (ofCh ([] ++ '.' :: e) ++ "_" ++ decStr n.toNat)).data =
        (x.data ++ ('.' :: e)) ++ '_' :: (decStr n.toNat).data := by
      simp [String.data_append, ofCh_data]
    refine ⟨?_, ?_, ?_⟩
    · rw [tagOf, hshape,
        tagOfL_und _ _ (decStr_ne_nil n.toNat) (decStr_all_digits n.toNat),
        decStr_val]
    · rw [String.data_append, head_append_left _ _ hxne, hheadx]
    · have hshape2 : (x ++ (ofCh ([] ++ '.' :: e) ++ "_" ++ decStr n.toNat)).data =
          (x.data ++ ('.' :: e) ++ ['_']) ++ (decStr n.toNat).data := by
        simp [String.data_append, ofCh_data]
      obtain ⟨last, hlast, hmem⟩ :=
        exists_getLast (decStr n.toNat).data (decStr_ne_nil n.toNat)
      refine ⟨last, ?_, Or.inl (decStr_mem_digit n.toNat last hmem)⟩
      rw [hshape2, List.getLast?_append_of_ne_nil _ (decStr_ne_nil n.toNat), hlast]
  · -- real stem and extension
    have hstem : fileStemOf raw = some (ofCh m) := by
      rw [fileStemOf, hname, Option.map_some']
      rw [show (ofCh (m ++ '.' :: e)).data = m ++ '.' :: e from rfl, hse]
      rw [if_neg hm0]
    have hext : extensionOf raw = some (ofCh e) := by
      rw [extensionOf, hname, Option.some_bind]
      rw [show (ofCh (m ++ '.' :: e)).data = m ++ '.' :: e from rfl, hse]
      rw [if_neg hm0]
      rfl
    have hrp : renamedPath raw n =
        withFileName raw (ofCh m ++ "_" ++ decStr n.toNat ++ ("." ++ ofCh e)) := by
      unfold renamedPath
      rw [hstem]
      dsimp only []
      rw [hext]
      dsimp only []
      rw [decInt_nonneg n hn]
    obtain ⟨x, hx, hheadx, x0, hx0⟩ :=
      withFileName_tail raw a _ (ofCh m ++ "_" ++ decStr n.toNat ++ ("." ++ ofCh e))
        hdec hb hb1 hb2
    rw [hrp, hx]
    have hxne : x.data ≠ [] := by rw [hx0]; simp
    have hshape : (x ++ (ofCh m ++ "_" ++ decStr n.toNat ++ ("." ++ ofCh e))).data =
        (x.data ++ m) ++ '_' :: ((decStr n.toNat).data ++ '.' :: e) := by
      simp [String.data_append, ofCh_data]
    refine ⟨?_, ?_, ?_⟩
    · rw [tagOf, hshape,
        tagOfL_ext _ _ e (decStr_ne_nil n.toNat) (decStr_all_digits n.toNat) heall,
        decStr_val]
    · rw [String.data_append, head_append_left _ _ hxne, hheadx]
    · have hshape2 : (x ++ (ofCh m ++ "_" ++ decStr n.toNat ++ ("." ++ ofCh e))).data =
          (x.data ++ m ++ '_' :: ((decStr n.toNat).data ++ ['.'])) ++ e := by
        simp [String.data_append, ofCh_data]
      obtain ⟨last, hlast, hmem⟩ := exists_getLast e hene
      refine ⟨last, ?_, Or.inr hmem⟩
      rw [hshape2, List.getLast?_append_of_ne_nil _ hene, hlast]

/-- The shape every raw File filename reaching run_parser has: it contains a
    slash (simple_file_output prepends the compile directory to relative
    names), it ends in .txt, .html or .json, and either its head character
    is a digit or the letter u (a compile directory), or it is absolute, in
    which case it ends in .txt or .json (graph_dump and artifact names are
    the only absolute raw names, and their extension is appended by the
    analyzer). -/
def RawHyp (raw : String) : Prop :=
  ('/' ∈ raw.data) ∧
  ((∃ c0, raw.data.head? = some c0 ∧ (isDigitCh c0 = true ∨ c0 = 'u')) ∧
     (strEnds raw ".txt" = true ∨ strEnds raw ".html" = true ∨
       strEnds raw ".json" = true)
   ∨ (raw.data.head? = some '/' ∧
       (strEnds raw ".txt" = true ∨ strEnds raw ".json" = true)))

theorem renamed_spec (raw : String) (n : Int) (hn : 0 ≤ n) (h : RawHyp raw) :
    tagOf (renamedPath raw n) = some n.toNat ∧
      isDumpStyle (renamedPath raw n) = false := by
  obtain ⟨hslash, hcase⟩ := h
  rcases hcase with ⟨⟨c0, hc0, hc0d⟩, hend⟩ | ⟨hhead, hend⟩
  · have hcore : tagOf (renamedPath raw n) = some n.toNat ∧
        (renamedPath raw n).data.head? = raw.data.head? ∧
        ∃ last, (renamedPath raw n).data.getLast? = some last ∧
          (isDigitCh last = true ∨ last ∈ ("txt".data : List Char) ∨
            last ∈ ("html".data : List Char) ∨ last ∈ ("json".data : List Char)) := by
      rcases hend with h1 | h1 | h1
      · obtain ⟨ht, hh, last, hl, hd⟩ := renamed_core raw n hn "txt".data
          (by decide) (by decide) (by decide) (by decide)
          (suffix_of_strEnds raw ".txt" h1) hslash
        exact ⟨ht, hh, last, hl, by tauto⟩
      · obtain ⟨ht, hh, last, hl, hd⟩ := renamed_core raw n hn "html".data
          (by decide) (by decide) (by decide) (by decide)
          (suffix_of_strEnds raw ".html" h1) hslash
        exact ⟨ht, hh, last, hl, by tauto⟩
      · obtain ⟨ht, hh, last, hl, hd⟩ := renamed_core raw n hn "json".data
          (by decide) (by decide) (by decide) (by decide)
          (suffix_of_strEnds raw ".json" h1) hslash
        exact ⟨ht, hh, last, hl, by tauto⟩
    obtain ⟨htag, hhead2, _⟩ := hcore
    refine ⟨htag, ?_⟩
    have hh : (renamedPath raw n).data.head? = some c0 := by rw [hhead2, hc0]
    have hd : ('d' : Char) ≠ c0 := by
      intro he
      rcases hc0d with h2 | h2
      · rw [← he] at h2; exact absurd h2 (by decide)
      · rw [← he] at h2; exact absurd h2 (by decide)
    have hs : ('/' : Char) ≠ c0 := by
      intro he
      rcases hc0d with h2 | h2
      · rw [← he] at h2; exact absurd h2 (by decide)
      · rw [← he] at h2; exact absurd h2 (by decide)
    have h1 : strStarts (renamedPath raw n) "dump_file/" = false :=
      strStarts_false_of_head _ _ c0 'd' hh (by decide) hd
    have h2 : strStarts (renamedPath raw n) "/" = false :=
      strStarts_false_of_head _ _ c0 '/' hh (by decide) hs
    rw [isDumpStyle, h1, h2]
    rfl
  · have hcore : tagOf (renamedPath raw n) = some n.toNat ∧
        (renamedPath raw n).data.head? = raw.data.head? ∧
        ∃ last, (renamedPath raw n).data.getLast? = some last ∧
          (isDigitCh last = true ∨ last ∈ ("txt".data : List Char) ∨
            last ∈ ("json".data : List Char)) := by
      rcases hend with h1 | h1
      · obtain ⟨ht, hh, last, hl, hd⟩ := renamed_core raw n hn "txt".data
          (by decide) (by decide) (by decide) (by decide)
          (suffix_of_strEnds raw ".txt" h1) hslash
        exact ⟨ht, hh, last, hl, by tauto⟩
      · obtain ⟨ht, hh, last, hl, hd⟩ := renamed_core raw n hn "json".data
          (by decide) (by decide) (by decide) (by decide)
          (suffix_of_strEnds raw ".json" h1) hslash
        exact ⟨ht, hh, last, hl, by tauto⟩
    obtain ⟨htag, hhead2, last, hlast, hld⟩ := hcore
    refine ⟨htag, ?_⟩
    have hh : (renamedPath raw n).data.head? = some '/' := by rw [hhead2, hhead]
    have h1 : strStarts (renamedPath raw n) "dump_file/" = false :=
      strStarts_false_of_head _ _ '/' 'd' hh (by decide) (by decide)
    have hlne : last ≠ 'l' := by
      rcases hld with h2 | h2 | h2
      · intro he; rw [he] at h2; exact absurd h2 (by decide)
      · intro he; rw [he] at h2; revert h2; decide
      · intro he; rw [he] at h2; revert h2; decide
    have h2 : strEnds (renamedPath raw n) ".html" = false :=
      not_ends_html _ last hlast hlne
    rw [isDumpStyle, h1, h2]
    simp

/-! The output-list invariant: every emitted entry is either dump-file
    styled, or carries a readable sequence tag smaller than the current
    counter; non-dump entries have pairwise distinct tags. -/

def entryOk (n : Int) (en : String × String) : Prop :=
  isDumpStyle en.1 = true ∨ ∃ c : Nat, tagOf en.1 = some c ∧ (c : Int) < n

def pairTagDistinct (a b : String × String) : Prop :=
  isDumpStyle a.1 = false → isDumpStyle b.1 = false → tagOf a.1 ≠ tagOf b.1

def OutInv (outs : List (String × String)) (n : Int) : Prop :=
  0 ≤ n ∧ (∀ en ∈ outs, entryOk n en) ∧ List.Pairwise pairTagDistinct outs

theorem entryOk_mono (n m : Int) (h : n ≤ m) (en : String × String)
    (he : entryOk n en) : entryOk m en := by
  rcases he with h1 | ⟨c, h1, h2⟩
  · exact Or.inl h1
  · exact Or.inr ⟨c, h1, by omega⟩

theorem OutInv_mono (outs : List (String × String)) (n m : Int) (h : n ≤ m)
    (hi : OutInv outs n) : OutInv outs m := by
  obtain ⟨hn, hok, hpw⟩ := hi
  exact ⟨by omega, fun en hen => entryOk_mono n m h en (hok en hen), hpw⟩

theorem OutInv_pushFile (outs : List (String × String)) (n : Int)
    (raw c : String) (hi : OutInv outs n) (hr : RawHyp raw) :
    OutInv (outs ++ [(renamedPath raw n, c)]) (n + 1) := by
  obtain ⟨hn, hok, hpw⟩ := hi
  obtain ⟨htag, hdump⟩ := renamed_spec raw n hn hr
  have hcan : ((n.toNat : Int)) = n := Int.toNat_of_nonneg hn
  refine ⟨by omega, ?_, ?_⟩
  · intro en hen
    rcases List.mem_append.mp hen with h1 | h1
    · exact entryOk_mono n (n + 1) (by omega) en (hok en h1)
    · have heq : en = (renamedPath raw n, c) := by simpa using h1
      subst heq
      exact Or.inr ⟨n.toNat, htag, by omega⟩
  · rw [List.pairwise_append]
    refine ⟨hpw, by simp, ?_⟩
    intro a ha b hb
    have hbeq : b = (renamedPath raw n, c) := by simpa using hb
    subst hbeq
    intro hda _
    rcases hok a ha with h1 | ⟨ca, h1, h2⟩
    · rw [hda] at h1; exact absurd h1 (by decide)
    · rw [h1, htag]
      intro he
      injection he with he2
      rw [he2, hcan] at h2
      exact absurd h2 (lt_irrefl n)

theorem OutInv_pushGlobal (outs : List (String × String)) (n : Int)
    (p c : String) (hi : OutInv outs n) (hd : isDumpStyle p = true) :
    OutInv (outs ++ [(p, c)]) (n + 1) := by
  obtain ⟨hn, hok, hpw⟩ := hi
  refine ⟨by omega, ?_, ?_⟩
  · intro en hen
    rcases List.mem_append.mp hen with h1 | h1
    · exact entryOk_mono n (n + 1) (by omega) en (hok en h1)
    · have heq : en = (p, c) := by simpa using h1
      subst heq
      exact Or.inl hd
  · rw [List.pairwise_append]
    refine ⟨hpw, by simp, ?_⟩
    intro a ha b hb
    have hbeq : b = (p, c) := by simpa using hb
    subst hbeq
    intro _ hdb
    rw [hd] at hdb
    exact absurd hdb (by decide)

/-! Lifting to the run_parser sub-state. -/

def RSInv (rs : RunState) : Prop := OutInv rs.output rs.outputCount

theorem RSInv_pushFileOutput (rs : RunState) (raw c : String)
    (hr : RawHyp raw) (hi : RSInv rs) : RSInv (pushFileOutput rs raw c) := by
  rw [RSInv, pushFileOutput_eq]
  exact OutInv_pushFile rs.output rs.outputCount raw c hi hr

theorem RSInv_pushGlobalOutput (rs : RunState) (p c : String)
    (hd : isDumpStyle p = true) (hi : RSInv rs) :
    RSInv (pushGlobalOutput rs p c) :=
  OutInv_pushGlobal rs.output rs.outputCount p c hi hd

theorem RSInv_pushLinkOutput (rs : RunState) (name url : String)
    (hi : RSInv rs) : RSInv (pushLinkOutput rs name url) :=
  OutInv_mono rs.output rs.outputCount (rs.outputCount + 1) (by omega) hi

/-- The compile directory starts with a digit or the letter u. -/
theorem compileDir_head (lineno : Nat) (cid : Option CompileId) :
    ∃ c0, (compileDirOf lineno cid).data.head? = some c0 ∧
      (isDigitCh c0 = true ∨ c0 = 'u') := by
  cases cid with
  | none =>
    refine ⟨'u', ?_, Or.inr rfl⟩
    rw [compileDirOf, String.data_append,
      head_append_left _ _ (by decide : ("unknown_" : String).data ≠ [])]
    rfl
  | some c =>
    obtain ⟨d, t, hdt⟩ := List.exists_cons_of_ne_nil (decStr_ne_nil c.frame_id)
    refine ⟨d, ?_, Or.inl ?_⟩
    · rw [compileDirOf, String.data_append, String.data_append, String.data_append,
        String.data_append]
      rw [head_append_left, head_append_left, head_append_left, head_append_left]
      · rw [hdt]; rfl
      · exact decStr_ne_nil c.frame_id
      · simp [decStr_ne_nil c.frame_id]
      · simp [decStr_ne_nil c.frame_id]
      · simp [decStr_ne_nil c.frame_id]
    · exact decStr_mem_digit c.frame_id d (by rw [hdt]; exact List.mem_cons_self d t)

theorem strEnds_shift (x y t : String) (h : strEnds y t = true) :
    strEnds (x ++ y) t = true := by
  apply strEnds_of_suffix
  rw [String.data_append]
  exact (suffix_of_strEnds y t h).trans (List.suffix_append x.data y.data)

theorem head_some_ne_nil (l : List Char) (c : Char) (h : l.head? = some c) :
    l ≠ [] := by
  intro he
  rw [he] at h
  simp at h

/-- Every filename handed to simple_file_output with a recognized extension
    yields a path satisfying RawHyp. -/
theorem simpleFileHyp (filename : String) (lineno : Nat) (cid : Option CompileId)
    (hendf : strEnds filename ".txt" = true ∨ strEnds filename ".html" = true ∨
      strEnds filename ".json" = true)
    (habs : strStarts filename "/" = true →
      (strEnds filename ".txt" = true ∨ strEnds filename ".json" = true)) :
    RawHyp (pathJoin (compileDirOf lineno cid) filename) := by
  rw [pathJoin]
  by_cases hs : strStarts filename "/" = true
  · rw [if_pos hs]
    obtain ⟨t, ht⟩ := List.isPrefixOf_iff_prefix.mp hs
    refine ⟨?_, Or.inr ⟨?_, habs hs⟩⟩
    · rw [← ht]; simp
    · rw [← ht]; rfl
  · rw [if_neg hs]
    obtain ⟨c0, hc0, hc0d⟩ := compileDir_head lineno cid
    refine ⟨?_, Or.inl ⟨⟨c0, ?_, hc0d⟩, ?_⟩⟩
    · rw [String.data_append, String.data_append]
      simp
    · rw [String.data_append, String.data_append]
      rw [head_append_left _ _ (by simp [head_some_ne_nil _ _ hc0])]
      rw [head_append_left _ _ (head_some_ne_nil _ _ hc0)]
      exact hc0
    · rcases hendf with h1 | h1 | h1
      · exact Or.inl (strEnds_shift _ _ _ h1)
      · exact Or.inr (Or.inl (strEnds_shift _ _ _ h1))
      · exact Or.inr (Or.inr (strEnds_shift _ _ _ h1))

theorem isPrefixOf_self_append (l m : List Char) : l.isPrefixOf (l ++ m) = true :=
  List.isPrefixOf_iff_prefix.mpr (List.prefix_append l m)

/-- dump_file analyzer outputs always have the dump style. -/
theorem dump_path_style (f : String) (hf : strEnds f ".html" = true) :
    isDumpStyle (pathJoin "dump_file" f) = true := by
  rw [pathJoin]
  by_cases hs : strStarts f "/" = true
  · rw [if_pos hs, isDumpStyle, hs, hf]
    simp
  · rw [if_neg hs, isDumpStyle]
    have hdata : ("dump_file" ++ "/" ++ f).data = "dump_file/".data ++ f.data := by
      rw [String.data_append]
      rfl
    have h1 : strStarts ("dump_file" ++ "/" ++ f) "dump_file/" = true := by
      rw [strStarts, hdata]
      exact isPrefixOf_self_append _ _
    rw [h1]
    rfl

theorem RSInv_simpleFile (rs : RunState) (filename : String) (lineno : Nat)
    (cid : Option CompileId) (payload : String) (hi : RSInv rs)
    (hendf : strEnds filename ".txt" = true ∨ strEnds filename ".html" = true ∨
      strEnds filename ".json" = true)
    (habs : strStarts filename "/" = true →
      (strEnds filename ".txt" = true ∨ strEnds filename ".json" = true)) :
    RSInv (applyParserOutputs rs (simple_file_output filename lineno cid payload)) := by
  show RSInv (pushFileOutput rs (pathJoin (compileDirOf lineno cid) filename) payload)
  exact RSInv_pushFileOutput rs _ payload (simpleFileHyp filename lineno cid hendf habs) hi

theorem lit_head (lit rest : String) (c : Char) (hl : lit.data.head? = some c) :
    (lit ++ rest).data.head? = some c := by
  rw [String.data_append, head_append_left _ _ (head_some_ne_nil _ _ hl), hl]

/-- One analyzer invocation preserves the output invariant (whether or not
    it errors). -/
theorem runOne_inv (ext : Ext) (cfg : ParseConfig) (lineno : Nat) (e : Envelope)
    (payload : String) (rs : RunState) (pid : ParserId) (hi : RSInv rs) :
    RSInv (runOneParser ext cfg lineno e payload rs pid).1 := by
  cases pid with
  | optimizeDdpSplitGraph =>
    simp only [runOneParser]
    split
    · exact RSInv_simpleFile rs _ lineno e.compile_id payload hi (by decide) (by decide)
    · exact hi
  | compiledAutogradGraph =>
    simp only [runOneParser]
    split
    · exact RSInv_simpleFile rs _ lineno e.compile_id payload hi (by decide) (by decide)
    · exact hi
  | aotForwardGraph =>
    simp only [runOneParser]
    split
    · exact RSInv_simpleFile rs _ lineno e.compile_id payload hi (by decide) (by decide)
    · exact hi
  | aotBackwardGraph =>
    simp only [runOneParser]
    split
    · exact RSInv_simpleFile rs _ lineno e.compile_id payload hi (by decide) (by decide)
    · exact hi
  | aotJointGraph =>
    simp only [runOneParser]
    split
    · exact RSInv_simpleFile rs _ lineno e.compile_id payload hi (by decide) (by decide)
    · exact hi
  | inductorPostGradGraph =>
    simp only [runOneParser]
    split
    · exact RSInv_simpleFile rs _ lineno e.compile_id payload hi (by decide) (by decide)
    · exact hi
  | dynamoCppGuardsStr =>
    simp only [runOneParser]
    split
    · exact RSInv_simpleFile rs _ lineno e.compile_id payload hi (by decide) (by decide)
    · exact hi
  | graphDump =>
    simp only [runOneParser]
    split
    · next name _ =>
      exact RSInv_simpleFile rs _ lineno e.compile_id payload hi
        (Or.inl (strEnds_self_append name ".txt"))
        (fun _ => Or.inl (strEnds_self_append name ".txt"))
    · exact hi
  | dynamoOutputGraph =>
    simp only [runOneParser]
    split
    · exact RSInv_simpleFile rs _ lineno e.compile_id payload hi (by decide) (by decide)
    · exact hi
  | dynamoGuards =>
    simp only [runOneParser]
    split
    · split
      · exact RSInv_simpleFile rs _ lineno e.compile_id _ hi (by decide) (by decide)
      · exact hi
    · exact hi
  | inductorOutputCode =>
    simp only [runOneParser]
    split
    · next mbFilename _ =>
      cases hpt : cfg.plain_text with
      | true =>
        simp only [hpt, if_true]
        split
        · next stem _ =>
          exact RSInv_simpleFile rs _ lineno e.compile_id payload hi
            (Or.inl (strEnds_self_append _ ".txt"))
            (fun _ => Or.inl (strEnds_self_append _ ".txt"))
        · exact RSInv_simpleFile rs _ lineno e.compile_id payload hi
            (by decide) (by decide)
      | false =>
        simp only [hpt, Bool.false_eq_true, if_false]
        split
        · next html _ =>
          split
          · next stem _ =>
            refine RSInv_simpleFile rs _ lineno e.compile_id html hi
              (Or.inr (Or.inl (strEnds_self_append _ ".html"))) ?_
            intro hst
            have hh : (("inductor_output_code_" ++ stem ++ ".html")).data.head? =
                some 'i' :=
              lit_head _ _ 'i' (lit_head "inductor_output_code_" stem 'i' rfl)
            have hf := strStarts_false_of_head _ "/" 'i' '/' hh (by decide) (by decide)
            rw [hst] at hf
            exact absurd hf (by decide)
          · exact RSInv_simpleFile rs _ lineno e.compile_id html hi
              (by decide) (by decide)
        · exact hi
    · exact hi
  | optimizeDdpSplitChild =>
    simp only [runOneParser]
    split
    · next name _ =>
      exact RSInv_simpleFile rs _ lineno e.compile_id payload hi
        (Or.inl (strEnds_self_append _ ".txt"))
        (fun _ => Or.inl (strEnds_self_append _ ".txt"))
    · exact hi
  | aotAutogradBackwardMetrics =>
    simp only [runOneParser]
    split
    · exact RSInv_simpleFile rs _ lineno e.compile_id _ hi (by decide) (by decide)
    · exact hi
  | bwdMetrics =>
    simp only [runOneParser]
    split
    · exact RSInv_simpleFile rs _ lineno e.compile_id _ hi (by decide) (by decide)
    · exact hi
  | linkKind =>
    simp only [runOneParser]
    split
    · next name url _ =>
      exact RSInv_pushLinkOutput rs name url hi
    · exact hi
  | artifactKind =>
    simp only [runOneParser]
    split
    · next name encoding _ =>
      split
      · exact RSInv_simpleFile rs _ lineno e.compile_id payload hi
          (Or.inl (strEnds_self_append name ".txt"))
          (fun _ => Or.inl (strEnds_self_append name ".txt"))
      · split
        · split
          · next pretty _ =>
            exact RSInv_simpleFile rs _ lineno e.compile_id pretty hi
              (Or.inr (Or.inr (strEnds_self_append name ".json")))
              (fun _ => Or.inr (strEnds_self_append name ".json"))
          · exact hi
        · exact hi
    · exact hi
  | dumpFileKind =>
    simp only [runOneParser]
    split
    · next name _ =>
      split
      · next fx_id _ =>
        show RSInv (pushGlobalOutput rs
          (pathJoin "dump_file" ("eval_with_key_" ++ decStr fx_id ++ ".html"))
          (anchor_source payload))
        exact RSInv_pushGlobalOutput rs _ _
          (dump_path_style _ (strEnds_self_append _ ".html")) hi
      · show RSInv (pushGlobalOutput rs (pathJoin "dump_file" (name ++ ".html"))
          (anchor_source payload))
        exact RSInv_pushGlobalOutput rs _ _
          (dump_path_style _ (strEnds_self_append _ ".html")) hi
    · exact hi

theorem runAll_inv (ext : Ext) (cfg : ParseConfig) (lineno : Nat) (e : Envelope)
    (payload : String) :
    ∀ (pids : List ParserId) (rs : RunState), RSInv rs →
     RSInv (runParsersAll ext cfg lineno e payload pids rs).1 := by
  intro pids
  induction pids with
  | nil => intro rs hi; exact hi
  | cons pid rest ih =>
    intro rs hi
    have hone := runOne_inv ext cfg lineno e payload rs pid hi
    rcases hr : runOneParser ext cfg lineno e payload rs pid with ⟨rs2, err⟩
    rw [hr] at hone
    simp only [runParsersAll, hr]
    cases err with
    | none => exact ih rs2 hone
    | some e2 => exact hone

/-- The compilation-metrics analyzer emits exactly one simple_file_output
    named compilation_metrics.html. -/
theorem cmParse_shape (ext : Ext) (tbl : InternTable) (lineno : Nat)
    (cid : Option CompileId) (m : CompilationMetricsMetadata)
    (stackIdx : StackIndex) (specIdx : SpecIndex)
    (copiedBucket : List OutputFile) (compileIdDir : String) :
    ∃ content,
      cmParse ext tbl lineno cid m stackIdx specIdx copiedBucket compileIdDir =
        (simple_file_output "compilation_metrics.html" lineno cid content,
         (specIndexRemove specIdx (cid.map (fun c => { c with attempt := 0 }))).2) :=
  ⟨_, rfl⟩

theorem metricsBlock_inv (ext : Ext) (tbl : InternTable) (lineno : Nat)
    (e : Envelope) (rs : RunState) (breaks : List (String × String))
    (mi : CompilationMetricsIndex) (stackIdx : StackIndex) (si : SpecIndex)
    (hi : RSInv rs) :
    RSInv (metricsBlock ext tbl lineno e rs breaks mi stackIdx si).1.1 := by
  cases hcm : e.compilation_metrics with
  | none => simp only [metricsBlock, hcm]; exact hi
  | some m =>
    obtain ⟨content, hcp⟩ := cmParse_shape ext tbl lineno e.compile_id m
      stackIdx si rs.bucket (compileDirOf lineno e.compile_id)
    simp only [metricsBlock, hcm, hcp]
    have hrs2 := RSInv_simpleFile rs "compilation_metrics.html" lineno
      e.compile_id content hi (by decide) (by decide)
    split
    · split
      · exact hrs2
      · exact hrs2
    · exact hrs2

/-! Lifting to the main loop state. -/

def StInv (st : LoopState) : Prop := OutInv st.output st.outputCount

theorem processSurvivor_inv (ext : Ext) (cfg : ParseConfig) (st : LoopState)
    (lineno : Nat) (e : Envelope) (payload : String) (hi : StInv st) :
    StInv (processSurvivor ext cfg st lineno e payload).1 := by
  have h1 := runAll_inv ext cfg lineno e payload defaultParsers
    { output := st.output
      bucket := (dirLookup (if dirHas st.directory e.compile_id then st.directory
        else st.directory ++ [(e.compile_id, [])]) e.compile_id).getD []
      outputCount := st.outputCount
      stats := { st.stats with ok := st.stats.ok + 1 } } hi
  simp only [processSurvivor]
  split
  · next rs1 err heq =>
    rw [show runParsersAll ext cfg lineno e payload defaultParsers
      { output := st.output
        bucket := (dirLookup (if dirHas st.directory e.compile_id then st.directory
          else st.directory ++ [(e.compile_id, [])]) e.compile_id).getD []
        outputCount := st.outputCount
        stats := { st.stats with ok := st.stats.ok + 1 } } = (rs1, some err)
      from heq] at h1
    exact h1
  · next rs1 heq =>
    rw [show runParsersAll ext cfg lineno e payload defaultParsers
      { output := st.output
        bucket := (dirLookup (if dirHas st.directory e.compile_id then st.directory
          else st.directory ++ [(e.compile_id, [])]) e.compile_id).getD []
        outputCount := st.outputCount
        stats := { st.stats with ok := st.stats.ok + 1 } } = (rs1, none)
      from heq] at h1
    have h2 := metricsBlock_inv ext st.internTable lineno e rs1 st.breaks
      st.metricsIndex st.stackIndex st.specIndex h1
    split
    · next rs2 breaks2 mi2 si2 err2 heq2 =>
      rw [show metricsBlock ext st.internTable lineno e rs1 st.breaks
        st.metricsIndex st.stackIndex st.specIndex =
        ((rs2, breaks2, mi2, si2), some err2) from heq2] at h2
      exact h2
    · next rs2 breaks2 mi2 si2 heq2 =>
      rw [show metricsBlock ext st.internTable lineno e rs1 st.breaks
        st.metricsIndex st.stackIndex st.specIndex =
        ((rs2, breaks2, mi2, si2), none) from heq2] at h2
      split
      · exact h2
      · exact h2
      · exact hi

theorem digestCheck_inv (ext : Ext) (st : LoopState) (e : Envelope)
    (payload : String) (hi : StInv st) : StInv (digestCheck ext st e payload) := by
  rw [digestCheck]
  split
  · split
    · split
      · exact hi
      · exact hi
    · exact hi
  · exact hi

theorem digestAndGate_inv (ext : Ext) (cfg : ParseConfig) (st : LoopState)
    (lineno : Nat) (e : Envelope) (payload : String) (hi : StInv st) :
    StInv (digestAndGate ext cfg st lineno e payload).1 := by
  have hd := digestCheck_inv ext st e payload hi
  simp only [digestAndGate]
  split
  · split
    · exact hd
    · exact processSurvivor_inv ext cfg _ lineno e payload hd
  · exact processSurvivor_inv ext cfg _ lineno e payload hd

theorem processDecoded_inv (ext : Ext) (cfg : ParseConfig) (st : LoopState)
    (lineno : Nat) (e : Envelope) (rest : List (Nat × String)) (hi : StInv st) :
    StInv (processDecoded ext cfg st lineno e rest).1 := by
  simp only [processDecoded]
  split
  · exact hi
  · split
    · exact digestAndGate_inv ext cfg (bumpUnknown st e.otherFields.length)
        lineno e (consumePayloadLines rest).1 hi
    · exact digestAndGate_inv ext cfg (bumpUnknown st e.otherFields.length)
        lineno e "" hi

theorem runLines_inv (ext : Ext) (cfg : ParseConfig) :
    ∀ (fuel : Nat) (st : LoopState) (lines : List (Nat × String)), StInv st →
      StInv (runLines ext cfg fuel st lines).1 := by
  intro fuel
  induction fuel with
  | zero =>
    intro st lines hi
    cases lines with
    | nil => exact hi
    | cons p rest => exact hi
  | succ f ih =>
    intro st lines hi
    cases lines with
    | nil => exact hi
    | cons p rest =>
      obtain ⟨lineno, line⟩ := p
      simp only [runLines]
      split
      · exact ih _ _ hi
      · split
        · exact ih _ _ hi
        · next e heqd =>
          split
          · next st2 rest2 err heq =>
            have h2 := processDecoded_inv ext cfg st lineno e rest hi
            rw [heq] at h2
            exact h2
          · next st2 rest2 heq =>
            have h2 := processDecoded_inv ext cfg st lineno e rest hi
            rw [heq] at h2
            exact ih _ _ h2

theorem bool_not_true (b : Bool) (h : ¬ b = true) : b = false := by
  cases b
  · rfl
  · exact absurd rfl h

/-- The four fixed outputs appended by finish never collide with the
    invariant-carrying per-analyzer outputs nor with each other. -/
theorem fixed_tail_pairwise (outs : List (String × String)) (n : Int)
    (v1 v2 v3 v4 : String) (hi : OutInv outs n) :
    List.Pairwise (fun a b => a.1 = b.1 → isDumpStyle a.1 = true)
      (outs ++ [("failures_and_restarts.html", v1), ("chromium_events.json", v2),
        ("index.html", v3), ("raw.log", v4)]) := by
  obtain ⟨hn, hok, hpw⟩ := hi
  rw [List.pairwise_append]
  refine ⟨?_, ?_, ?_⟩
  · refine hpw.imp ?_
    intro a b hab heq
    by_cases hda : isDumpStyle a.1 = true
    · exact hda
    · exfalso
      have hda2 := bool_not_true _ hda
      have hdb2 : isDumpStyle b.1 = false := by rw [← heq]; exact hda2
      exact hab hda2 hdb2 (by rw [heq])
  · refine List.Pairwise.cons ?_ (List.Pairwise.cons ?_ (List.Pairwise.cons ?_
      (List.pairwise_singleton _ _)))
    · intro b hb heq
      exfalso
      simp at hb
      rcases hb with hb | hb | hb
      · rw [hb] at heq
        exact absurd (show ("failures_and_restarts.html" : String) =
          "chromium_events.json" from heq) (by decide)
      · rw [hb] at heq
        exact absurd (show ("failures_and_restarts.html" : String) =
          "index.html" from heq) (by decide)
      · rw [hb] at heq
        exact absurd (show ("failures_and_restarts.html" : String) =
          "raw.log" from heq) (by decide)
    · intro b hb heq
      exfalso
      simp at hb
      rcases hb with hb | hb
      · rw [hb] at heq
        exact absurd (show ("chromium_events.json" : String) =
          "index.html" from heq) (by decide)
      · rw [hb] at heq
        exact absurd (show ("chromium_events.json" : String) =
          "raw.log" from heq) (by decide)
    · intro b hb heq
      exfalso
      simp at hb
      rw [hb] at heq
      exact absurd (show ("index.html" : String) = "raw.log" from heq) (by decide)
  · intro a ha b hb heq
    by_cases hda : isDumpStyle a.1 = true
    · exact hda
    · exfalso
      have hda2 := bool_not_true _ hda
      have htb : tagOf b.1 = none := by
        simp at hb
        rcases hb with hb | hb | hb | hb
        · rw [hb]; exact (by decide : tagOf "failures_and_restarts.html" = none)
        · rw [hb]; exact (by decide : tagOf "chromium_events.json" = none)
        · rw [hb]; exact (by decide : tagOf "index.html" = none)
        · rw [hb]; exact (by decide : tagOf "raw.log" = none)
      rcases hok a ha with h1 | ⟨ca, h1, _⟩
      · rw [hda2] at h1; exact absurd h1 (by decide)
      · have h4 := congrArg tagOf heq
        rw [h1, htb] at h4
        exact Option.noConfusion h4

/-- parse_path returns ok exactly on the happy path, and the payload is
    finishOutput of the final loop state. -/
theorem parse_path_ok_shape (ext : Ext) (cfg : ParseConfig) (isFile : Bool)
    (tbl : InternTable) (raw : String) (out : List (String × String))
    (tbl2 : InternTable)
    (h : parse_path ext cfg isFile tbl raw = (.ok out, tbl2)) :
    ∃ st, runLines ext cfg (numberLines (linesOf raw)).length
        { internTable := tbl } (numberLines (linesOf raw)) = (st, none) ∧
      out = finishOutput ext cfg raw st := by
  rw [parse_path] at h
  cases isFile with
  | false => simp at h
  | true =>
    rw [show (!true) = false from rfl] at h
    rw [if_neg (by simp)] at h
    dsimp only [] at h
    rcases hrl : runLines ext cfg (numberLines (linesOf raw)).length
      { internTable := tbl } (numberLines (linesOf raw)) with ⟨st, err⟩
    rw [hrl] at h
    cases err with
    | some e2 => simp at h
    | none =>
      dsimp only [] at h
      refine ⟨st, rfl, ?_⟩
      by_cases h1 : (cfg.strict && decide (0 < statsStrictSum st.stats)) = true
      · rw [if_pos h1] at h; simp at h
      · rw [if_neg h1] at h
        by_cases h2 : (cfg.strict_compile_id && dirHas st.directory none) = true
        · rw [if_pos h2] at h; simp at h
        · rw [if_neg h2] at h
          have := congrArg Prod.fst h
          simpa using this.symm

set_option maxHeartbeats 1000000

/-- C7 (amended): in every successful parse_path result, any two entries of
    the returned (path, bytes) list that share a path are dump_file-style
    paths (a GlobalFile of the dump-file analyzer, which is not renamed);
    the renamed File outputs and the four fixed top-level files are pairwise
    distinct from each other and from everything else. -/
theorem C7_output_path_uniqueness (ext : Ext) (cfg : ParseConfig) (isFile : Bool)
    (tbl : InternTable) (raw : String) (out : List (String × String))
    (tbl2 : InternTable)
    (h : parse_path ext cfg isFile tbl raw = (.ok out, tbl2)) :
    List.Pairwise (fun a b => a.1 = b.1 → isDumpStyle a.1 = true) out := by
  obtain ⟨st, hrl, hout⟩ := parse_path_ok_shape ext cfg isFile tbl raw out tbl2 h
  have hst : StInv st := by
    have h0 : StInv ({ internTable := tbl } : LoopState) :=
      ⟨le_refl 0, by intro en hen; exact absurd hen (by simp), List.Pairwise.nil⟩
    have h3 := runLines_inv ext cfg (numberLines (linesOf raw)).length
      { internTable := tbl } (numberLines (linesOf raw)) h0
    rw [hrl] at h3
    exact h3
  rw [hout, finishOutput]
  simp only [List.append_assoc]
  exact fixed_tail_pairwise st.output st.outputCount _ _ _ _ hst

def envDumpD : Envelope := { dump_file := some "d" }

def extC7 : Ext :=
  { extBase with
    decodeEnvelope := fun p =>
      if p = "\x7b\"dump_file\": \"d\"\x7d" then some envDumpD
      else none }

def rawC7 : String :=
  demoGlogPrefix ++ "\x7b\"dump_file\": \"d\"\x7d\n" ++
    demoGlogPrefix ++ "\x7b\"dump_file\": \"d\"\x7d\n"

set_option maxRecDepth 4000
set_option maxHeartbeats 2000000

/-- C7 counterexample: two dump_file records with the same name produce the
    relative path dump_file/d.html twice in the returned list — GlobalFile
    outputs are not renamed, so the claimed global path uniqueness fails. -/
theorem C7_counterexample :
    (parse_path extC7 {} true [] rawC7).1.map
      (fun out => (out.map Prod.fst).count "dump_file/d.html") = .ok 2 := by
  decide

/-- C7 witness: the amended uniqueness theorem applied to a concrete
    successful run (the empty input file). -/
theorem C7_witness :
    List.Pairwise (fun (a b : String × String) => a.1 = b.1 → isDumpStyle a.1 = true)
      (finishOutput extBase {} "" { internTable := [] }) :=
  C7_output_path_uniqueness extBase {} true [] ""
    (finishOutput extBase {} "" { internTable := [] }) [] (by decide)

end Tlparse
